import Mathlib

set_option maxHeartbeats 1000000
set_option maxRecDepth 10000

/-!
Verification of the TerraExplorer resilience layer
(`src/services/geminiService.ts`): JSON extraction and repair,
retry with backoff, and the request orchestrators.

JavaScript is modelled shallowly:
* JSON values are the inductive `Json`; arrays carry a JS property
  list in addition to their elements, since the coercion code may
  assign named properties to a parsed array.  Numbers are modelled
  as integers (floating point is outside the embedding; every input
  exercised here uses integral numerals).
* `JSONparse` models `JSON.parse` (strict grammar, no trailing
  commas, escape-aware strings); `JSONstringify` models
  `JSON.stringify` (no indentation).
* Thrown exceptions are modelled with `Except`; the error values
  carry the fields inspected by the source's quota classifiers.
* Strict-mode property assignment on a primitive is a TypeError.
-/

/-! ### Characters that the token scanner of JavaScript regexes cares about -/

def qChar : Char := Char.ofNat 34

def bsChar : Char := Char.ofNat 92

def obChar : Char := Char.ofNat 123

def cbChar : Char := Char.ofNat 125

def btChar : Char := Char.ofNat 96

def nlChar : Char := Char.ofNat 10

def crChar : Char := Char.ofNat 13

def tabChar : Char := Char.ofNat 9

def ellChar : Char := Char.ofNat 8230

/-- Whitespace for JavaScript's regex class and `String.prototype.trim`
(the code points relevant to this code base). -/
def isJsWs (c : Char) : Bool :=
  c = ' ' || c = tabChar || c = nlChar || c = crChar ||
    c = Char.ofNat 11 || c = Char.ofNat 12 || c = Char.ofNat 0xFEFF || c = Char.ofNat 0xA0

/-- Whitespace accepted by the JSON grammar. -/
def isJsonWs (c : Char) : Bool :=
  c = ' ' || c = tabChar || c = nlChar || c = crChar

def isDigitCh (c : Char) : Bool :=
  48 ≤ c.toNat && c.toNat ≤ 57

/-- Model of `String.prototype.trim`. -/
def jsTrimList (cs : List Char) : List Char :=
  ((cs.dropWhile isJsWs).reverse.dropWhile isJsWs).reverse

def jsTrim (s : String) : String :=
  String.mk (jsTrimList s.toList)

/-- Leftmost occurrence search: does `pat` occur as a contiguous run in `l`? -/
def hasSubList (pat : List Char) : List Char → Bool
  | [] => pat.isEmpty
  | c :: cs => pat.isPrefixOf (c :: cs) || hasSubList pat cs

def hasSub (s pat : String) : Bool :=
  hasSubList pat.toList s.toList

/-- JavaScript `String.prototype.replace` with a global literal pattern:
left-to-right, non-overlapping.  The fuel argument only discharges
termination; one unit per emitted character suffices and the wrapper
supplies the input length. -/
def replaceSubListF (pat repl : List Char) : Nat → List Char → List Char
  | _, [] => []
  | 0, cs => cs
  | Nat.succ f, c :: cs =>
    if 0 < pat.length ∧ pat.isPrefixOf (c :: cs) then
      repl ++ replaceSubListF pat repl f ((c :: cs).drop pat.length)
    else
      c :: replaceSubListF pat repl f cs

def replaceSubList (pat repl cs : List Char) : List Char :=
  replaceSubListF pat repl cs.length cs

/-- Case-insensitive prefix test (ASCII case folding, as JS `i` flag on
ASCII patterns). -/
def isPrefixOfCI : List Char → List Char → Bool
  | [], _ => true
  | _ :: _, [] => false
  | p :: ps, c :: cs => (p.toLower = c.toLower) && isPrefixOfCI ps cs

/-- Global case-insensitive literal replacement (fueled as above). -/
def replaceSubListCIF (pat repl : List Char) : Nat → List Char → List Char
  | _, [] => []
  | 0, cs => cs
  | Nat.succ f, c :: cs =>
    if 0 < pat.length ∧ isPrefixOfCI pat (c :: cs) then
      repl ++ replaceSubListCIF pat repl f ((c :: cs).drop pat.length)
    else
      c :: replaceSubListCIF pat repl f cs

def replaceSubListCI (pat repl cs : List Char) : List Char :=
  replaceSubListCIF pat repl cs.length cs

/-! ### JavaScript JSON values

Arrays carry a property list besides their elements: the orchestrators
may assign named properties to whatever `JSON.parse` produced, and in
JavaScript that succeeds on arrays.  `JSON.parse` itself always builds
arrays with an empty property list. -/

inductive Json where
  | null : Json
  | bool (b : Bool) : Json
  | num (n : Int) : Json
  | str (s : String) : Json
  | arr (props : List (String × Json)) (elems : List Json) : Json
  | obj (fields : List (String × Json)) : Json

/-- JavaScript truthiness of a value. -/
def truthy : Json → Bool
  | .null => false
  | .bool b => b
  | .num n => n ≠ 0
  | .str s => s ≠ ""
  | .arr _ _ => true
  | .obj _ => true

def Json.isArr : Json → Bool
  | .arr _ _ => true
  | _ => false

def Json.elems : Json → List Json
  | .arr _ xs => xs
  | _ => []

/-- Property lookup on an association list: in a JavaScript object built
from JSON text with duplicate keys, the last value wins. -/
def assocGet (fs : List (String × Json)) (k : String) : Option Json :=
  (fs.reverse.find? (fun p => p.1 = k)).map Prod.snd

/-- Property read `v.k`.  On primitives it yields `undefined` (`none`);
reading a property of `null` is guarded by short-circuit checks at every
use site in the source, so a total model is faithful there. -/
def jget : Json → String → Option Json
  | .obj fs, k => assocGet fs k
  | .arr props _, k => assocGet props k
  | _, _ => none

def assocSet (fs : List (String × Json)) (k : String) (v : Json) : List (String × Json) :=
  if fs.any (fun p => p.1 = k) then
    fs.map (fun p => if p.1 = k then (p.1, v) else p)
  else
    fs ++ [(k, v)]

/-- Strict-mode property assignment `v.k = x`: succeeds on objects and
arrays, throws a TypeError on primitives. -/
def jset : Json → String → Json → Option Json
  | .obj fs, k, v => some (.obj (assocSet fs k v))
  | .arr props xs, k, v => some (.arr (assocSet props k v) xs)
  | _, _, _ => none

/-! ### Model of `JSON.parse` -/

def hexVal (c : Char) : Option Nat :=
  if 48 ≤ c.toNat ∧ c.toNat ≤ 57 then some (c.toNat - 48)
  else if 97 ≤ c.toNat ∧ c.toNat ≤ 102 then some (c.toNat - 87)
  else if 65 ≤ c.toNat ∧ c.toNat ≤ 70 then some (c.toNat - 55)
  else none

/-- String-body scanner: JSON escapes, closing quote ends the literal,
raw control characters are rejected.  Code units in the surrogate range
are outside the `Char` type and rejected. -/
def parseStrAux : List Char → List Char → Option (List Char × List Char)
  | _, [] => none
  | acc, c :: cs =>
    if c = qChar then some (acc.reverse, cs)
    else if c = bsChar then
      match cs with
      | [] => none
      | e :: cs2 =>
        if e = qChar then parseStrAux (qChar :: acc) cs2
        else if e = bsChar then parseStrAux (bsChar :: acc) cs2
        else if e = '/' then parseStrAux ('/' :: acc) cs2
        else if e = 'n' then parseStrAux (nlChar :: acc) cs2
        else if e = 'r' then parseStrAux (crChar :: acc) cs2
        else if e = 't' then parseStrAux (tabChar :: acc) cs2
        else if e = 'b' then parseStrAux (Char.ofNat 8 :: acc) cs2
        else if e = 'f' then parseStrAux (Char.ofNat 12 :: acc) cs2
        else if e = 'u' then
          match cs2 with
          | h1 :: h2 :: h3 :: h4 :: cs3 =>
            match hexVal h1, hexVal h2, hexVal h3, hexVal h4 with
            | some a, some b, some c3, some d4 =>
              let n := ((a * 16 + b) * 16 + c3) * 16 + d4
              if n < 0xD800 then parseStrAux (Char.ofNat n :: acc) cs3
              else if 0xDFFF < n then parseStrAux (Char.ofNat n :: acc) cs3
              else none
            | _, _, _, _ => none
          | _ => none
        else none
    else if c.toNat < 32 then none
    else parseStrAux (c :: acc) cs

/-- Greedy digit run, folding the value. -/
def readDigits : List Char → Nat → Nat × List Char
  | [], acc => (acc, [])
  | c :: cs, acc =>
    if isDigitCh c then readDigits cs (acc * 10 + (c.toNat - 48))
    else (acc, c :: cs)

def skipWs : List Char → List Char
  | [] => []
  | c :: cs => if isJsonWs c then skipWs cs else c :: cs

mutual

/-- Recursive-descent JSON value parser (fueled). -/
def parseVal : Nat → List Char → Option (Json × List Char)
  | 0, _ => none
  | Nat.succ f, cs =>
    match skipWs cs with
    | c :: rest =>
      if c = 'n' then
        match rest with
        | 'u' :: 'l' :: 'l' :: r => some (.null, r)
        | _ => none
      else if c = 't' then
        match rest with
        | 'r' :: 'u' :: 'e' :: r => some (.bool true, r)
        | _ => none
      else if c = 'f' then
        match rest with
        | 'a' :: 'l' :: 's' :: 'e' :: r => some (.bool false, r)
        | _ => none
      else if c = qChar then
        match parseStrAux [] rest with
        | some (body, rest2) => some (.str (String.mk body), rest2)
        | none => none
      else if c = '[' then
        match skipWs rest with
        | c2 :: rest2 =>
          if c2 = ']' then some (.arr [] [], rest2)
          else parseItems f (c2 :: rest2)
        | [] => none
      else if c = obChar then
        match skipWs rest with
        | c2 :: rest2 =>
          if c2 = cbChar then some (.obj [], rest2)
          else parseFields f (c2 :: rest2)
        | [] => none
      else if c = '-' then
        match rest with
        | c2 :: rest2 =>
          if c2 = '0' then some (.num 0, rest2)
          else if isDigitCh c2 then
            let p := readDigits (c2 :: rest2) 0
            some (.num (-(p.1 : Int)), p.2)
          else none
        | [] => none
      else if c = '0' then some (.num 0, rest)
      else if isDigitCh c then
        let p := readDigits (c :: rest) 0
        some (.num (p.1 : Int), p.2)
      else none
    | [] => none

/-- Array elements after the opening bracket (at least one element). -/
def parseItems : Nat → List Char → Option (Json × List Char)
  | 0, _ => none
  | Nat.succ f, cs =>
    match parseVal f cs with
    | some (v, rest) =>
      match skipWs rest with
      | c :: rest2 =>
        if c = ',' then
          match parseItems f rest2 with
          | some (.arr props vs, rest3) => some (.arr props (v :: vs), rest3)
          | _ => none
        else if c = ']' then some (.arr [] [v], rest2)
        else none
      | [] => none
    | none => none

/-- Object members after the opening brace (at least one member). -/
def parseFields : Nat → List Char → Option (Json × List Char)
  | 0, _ => none
  | Nat.succ f, cs =>
    match skipWs cs with
    | c :: rest =>
      if c = qChar then
        match parseStrAux [] rest with
        | some (key, rest2) =>
          match skipWs rest2 with
          | c2 :: rest3 =>
            if c2 = ':' then
              match parseVal f rest3 with
              | some (v, rest4) =>
                match skipWs rest4 with
                | c3 :: rest5 =>
                  if c3 = ',' then
                    match parseFields f rest5 with
                    | some (.obj fs, rest6) => some (.obj ((String.mk key, v) :: fs), rest6)
                    | _ => none
                  else if c3 = cbChar then some (.obj [(String.mk key, v)], rest5)
                  else none
                | [] => none
              | none => none
            else none
          | [] => none
        | none => none
      else none
    | [] => none

end

/-- The head dispatch of `parseVal` as a standalone function on the
first non-whitespace character; `parseVal_succ` relates the two, and
the symbolic round-trip lemmas go through this form. -/
def parseValCore (f : Nat) (c : Char) (rest : List Char) : Option (Json × List Char) :=
  if c = 'n' then
    match rest with
    | 'u' :: 'l' :: 'l' :: r => some (.null, r)
    | _ => none
  else if c = 't' then
    match rest with
    | 'r' :: 'u' :: 'e' :: r => some (.bool true, r)
    | _ => none
  else if c = 'f' then
    match rest with
    | 'a' :: 'l' :: 's' :: 'e' :: r => some (.bool false, r)
    | _ => none
  else if c = qChar then
    match parseStrAux [] rest with
    | some (body, rest2) => some (.str (String.mk body), rest2)
    | none => none
  else if c = '[' then
    match skipWs rest with
    | c2 :: rest2 =>
      if c2 = ']' then some (.arr [] [], rest2)
      else parseItems f (c2 :: rest2)
    | [] => none
  else if c = obChar then
    match skipWs rest with
    | c2 :: rest2 =>
      if c2 = cbChar then some (.obj [], rest2)
      else parseFields f (c2 :: rest2)
    | [] => none
  else if c = '-' then
    match rest with
    | c2 :: rest2 =>
      if c2 = '0' then some (.num 0, rest2)
      else if isDigitCh c2 then
        let p := readDigits (c2 :: rest2) 0
        some (.num (-(p.1 : Int)), p.2)
      else none
    | [] => none
  else if c = '0' then some (.num 0, rest)
  else if isDigitCh c then
    let p := readDigits (c :: rest) 0
    some (.num (p.1 : Int), p.2)
  else none

theorem parseVal_succ (f : Nat) (cs : List Char) {c : Char} {rest : List Char}
    (h : skipWs cs = c :: rest) :
    parseVal (f + 1) cs = parseValCore f c rest := by
  rw [parseVal, h]
  rfl

/-- Model of `JSON.parse`: `none` is a thrown SyntaxError.  The fuel is
ample for any input that the grammar accepts (two units per nesting
level are covered by the paired brackets). -/
def JSONparse (s : String) : Option Json :=
  match parseVal (2 * s.toList.length + 2) s.toList with
  | some (v, rest) => if skipWs rest = [] then some v else none
  | none => none

/-! ### Model of `JSON.stringify` (no indentation) -/

def hexChar (n : Nat) : Char :=
  if n < 10 then Char.ofNat (48 + n) else Char.ofNat (87 + n)

/-- Escaping of one character inside a string literal, as
`JSON.stringify` emits it. -/
def escapeChar (c : Char) : List Char :=
  if c = qChar then [bsChar, qChar]
  else if c = bsChar then [bsChar, bsChar]
  else if c = nlChar then [bsChar, 'n']
  else if c = crChar then [bsChar, 'r']
  else if c = tabChar then [bsChar, 't']
  else if c = Char.ofNat 8 then [bsChar, 'b']
  else if c = Char.ofNat 12 then [bsChar, 'f']
  else if c.toNat < 32 then [bsChar, 'u', '0', '0', hexChar (c.toNat / 16), hexChar (c.toNat % 16)]
  else [c]

def serStrBody (s : List Char) : List Char :=
  (s.map escapeChar).flatten

def serStr (s : List Char) : List Char :=
  qChar :: serStrBody s ++ [qChar]

def digitChar (n : Nat) : Char := Char.ofNat (48 + n)

/-- Decimal digits, most significant first; the fuel only discharges
termination (one unit per digit, so `m + 1` always suffices). -/
def natDigitsF : Nat → Nat → List Char → List Char
  | 0, _, acc => acc
  | Nat.succ f, m, acc =>
    if m < 10 then digitChar m :: acc else natDigitsF f (m / 10) (digitChar (m % 10) :: acc)

def natDigits (m : Nat) : List Char := natDigitsF (m + 1) m []

def serInt (n : Int) : List Char :=
  if n < 0 then '-' :: natDigits n.natAbs else natDigits n.toNat

def joinComma : List (List Char) → List Char
  | [] => []
  | [x] => x
  | x :: y :: tl => x ++ ',' :: joinComma (y :: tl)

/-- Serialization of a value, as `JSON.stringify` emits it (no
indentation); array property lists are invisible to it, as in
JavaScript.  The fuel covers one unit per nesting level. -/
def serValF : Nat → Json → List Char
  | 0, _ => []
  | Nat.succ f, v =>
    match v with
    | .null => (['n', 'u', 'l', 'l'] : List Char)
    | .bool true => (['t', 'r', 'u', 'e'] : List Char)
    | .bool false => (['f', 'a', 'l', 's', 'e'] : List Char)
    | .num n => serInt n
    | .str s => serStr s.toList
    | .arr _ xs => '[' :: joinComma (xs.map (serValF f)) ++ [']']
    | .obj fs =>
      obChar :: joinComma (fs.map (fun p => serStr p.1.toList ++ ':' :: serValF f p.2)) ++ [cbChar]

/-- `jsonPure g v` holds when `v` is a genuine JSON value (no array
carries JavaScript properties) of nesting depth at most `g`; for such
values `serValF g v` is the full `JSON.stringify` output.  Every value
produced by `JSONparse` satisfies it for a large enough `g`. -/
def jsonPure : Nat → Json → Bool
  | 0, _ => false
  | Nat.succ g, v =>
    match v with
    | .arr props xs => props.isEmpty && xs.all (jsonPure g)
    | .obj fs => fs.all (fun p => jsonPure g p.2)
    | _ => true

/-- `JSON.stringify` at serializer fuel `g` (see `jsonPure`). -/
def JSONstringifyF (g : Nat) (v : Json) : String :=
  String.mk (serValF g v)

/-! ### `cleanJsonString` (geminiService.ts lines 82-98) -/

/-- One step of the `/,(\s*[\]})/g → $1` replacement: a comma is dropped
exactly when, after a whitespace run, a closing brace or bracket
follows.  The emitted whitespace and closer never contain a comma, so
dropping the comma and rescanning coincides with the regex's
non-overlapping scan. -/
def closerAfterWs (cs : List Char) : Bool :=
  match cs.dropWhile isJsWs with
  | r :: _ => r = ']' || r = cbChar
  | [] => false

def dropTrailingCommas : List Char → List Char
  | [] => []
  | c :: cs =>
    if c = ',' ∧ closerAfterWs cs then dropTrailingCommas cs
    else c :: dropTrailingCommas cs

/-- Model of `cleanJsonString`: strip markdown fences, ellipses and
trailing commas, then trim. -/
def cleanJsonString (str : String) : String :=
  if str = "" then ""
  else
    let cleaned := replaceSubListCI "```json".toList [] str.toList
    let cleaned := replaceSubList "```".toList [] cleaned
    let cleaned := replaceSubList "...".toList [] cleaned
    let cleaned := replaceSubList [ellChar] [] cleaned
    let cleaned := dropTrailingCommas cleaned
    String.mk (jsTrimList cleaned)

/-! ### `repairTruncatedJson` (geminiService.ts lines 101-141) -/

/-- The unclosed-string scan: backslashes toggle the escape flag, an
unescaped double quote toggles the in-string flag. -/
def quoteScan : List Char → Bool → Bool → Bool
  | [], inStr, _ => inStr
  | c :: cs, inStr, esc =>
    if c = bsChar then quoteScan cs inStr (!esc)
    else quoteScan cs (if c = qChar ∧ ¬esc then !inStr else inStr) false

/-- Match one well-formed string literal after an opening quote, as the
regex `"([^"\\]*(\\.[^"\\]*)*)"` does; returns the number of characters
consumed including the closing quote.  The regex dot does not match
line terminators. -/
def matchStrLit : List Char → Option Nat
  | [] => none
  | c :: cs =>
    if c = qChar then some 1
    else if c = bsChar then
      match cs with
      | [] => none
      | e :: cs2 =>
        if e = nlChar ∨ e = crChar ∨ e = Char.ofNat 0x2028 ∨ e = Char.ofNat 0x2029 then none
        else (matchStrLit cs2).map (· + 2)
    else (matchStrLit cs).map (· + 1)

/-- Replace each string literal by an empty one, yielding the structural
skeleton used for brace counting (fuel only discharges termination; the
wrapper passes the input length). -/
def stripStringsF : Nat → List Char → List Char
  | _, [] => []
  | 0, cs => cs
  | Nat.succ f, c :: cs =>
    if c = qChar then
      match matchStrLit cs with
      | some k => qChar :: qChar :: stripStringsF f (cs.drop k)
      | none => c :: stripStringsF f cs
    else c :: stripStringsF f cs

def stripStrings (cs : List Char) : List Char :=
  stripStringsF cs.length cs

/-- Model of `repairTruncatedJson`: close an unterminated string, then
append one closing brace per unmatched opening brace and one closing
bracket per unmatched opening bracket — braces first, as the source
does. -/
def repairTruncatedJson (jsonStr : String) : String :=
  let fixed := jsTrimList jsonStr.toList
  if fixed.isEmpty then String.mk [obChar, cbChar]
  else
    let fixed := if quoteScan fixed false false then fixed ++ [qChar] else fixed
    let stripped := stripStrings fixed
    let openBraces := stripped.count obChar
    let closeBraces := stripped.count cbChar
    let openBrackets := stripped.count '['
    let closeBrackets := stripped.count ']'
    String.mk (fixed ++ List.replicate (openBraces - closeBraces) cbChar
      ++ List.replicate (openBrackets - closeBrackets) ']')

/-! ### `safeJsonParse` (geminiService.ts lines 144-214) -/

def startsBt3 : List Char → Bool
  | a :: b :: c :: _ => a = btChar && b = btChar && c = btChar
  | _ => false

/-- Lazy capture of `([\s\S]*?)` up to the next triple backtick;
`none` when no closing fence exists. -/
def captureTo3 : List Char → Option (List Char)
  | [] => none
  | c :: cs => if startsBt3 (c :: cs) then some [] else (captureTo3 cs).map (c :: ·)

/-- First match of `/```(?:json)?([\s\S]*?)```/`, returning the capture
group: leftmost start, optional literal `json`, then the lazy body. -/
def fenceSearch : List Char → Option (List Char)
  | [] => none
  | c :: cs =>
    if startsBt3 (c :: cs) then
      let rest := (c :: cs).drop 3
      match rest with
      | 'j' :: 's' :: 'o' :: 'n' :: rest2 =>
        match captureTo3 rest2 with
        | some cap => some cap
        | none =>
          match captureTo3 rest with
          | some cap => some cap
          | none => fenceSearch cs
      | _ =>
        match captureTo3 rest with
        | some cap => some cap
        | none => fenceSearch cs
    else fenceSearch cs

def firstIdx : List Char → Char → Option Nat
  | [], _ => none
  | c :: cs, t => if c = t then some 0 else (firstIdx cs t).map (· + 1)

def lastIdx (cs : List Char) (t : Char) : Option Nat :=
  (firstIdx cs.reverse t).map (fun i => cs.length - 1 - i)

/-- `text.substring(startIdx, actualEndIdx)` with the source's rule: a
missing or out-of-order closing token extends the slice to the end. -/
def bruteSlice (cs : List Char) (start : Nat) (endIdx? : Option Nat) : List Char :=
  let stop :=
    match endIdx? with
    | some e => if start < e then e + 1 else cs.length
    | none => cs.length
  (cs.drop start).take (stop - start)

/-- The brute-force candidate of strategy 2: from the first opening
brace or bracket (whichever comes first) to the matching last closing
token. -/
def bruteCandidate (cs : List Char) : Option (List Char) :=
  match firstIdx cs obChar, firstIdx cs '[' with
  | some b, some k =>
    if b < k then some (bruteSlice cs b (lastIdx cs cbChar))
    else some (bruteSlice cs k (lastIdx cs ']'))
  | some b, none => some (bruteSlice cs b (lastIdx cs cbChar))
  | none, some k => some (bruteSlice cs k (lastIdx cs ']'))
  | none, none => none

/-- Each strategy parses the cleaned candidate, then retries once
through `repairTruncatedJson`. -/
def parseWithRepair (cleaned : String) : Option Json :=
  match JSONparse cleaned with
  | some v => some v
  | none => JSONparse (repairTruncatedJson cleaned)

/-- Model of `safeJsonParse`.  The boolean records whether the final
`console.error` fired: `true` means a parse failure was logged, while a
recognized conversational refusal returns quietly. -/
def safeJsonParseLog (text : String) : Option Json × Bool :=
  if text = "" then (none, false)
  else
    let cs := text.toList
    let fenceRes : Option Json :=
      match fenceSearch cs with
      | some cap => parseWithRepair (cleanJsonString (String.mk cap))
      | none => none
    match fenceRes with
    | some v => (some v, false)
    | none =>
      let bruteRes : Option Json :=
        match bruteCandidate cs with
        | some cand => parseWithRepair (cleanJsonString (String.mk cand))
        | none => none
      match bruteRes with
      | some v => (some v, false)
      | none =>
        match parseWithRepair (cleanJsonString text) with
        | some v => (some v, false)
        | none =>
          let lower := jsTrimList (cs.map Char.toLower)
          if "i am".toList.isPrefixOf lower || "sorry".toList.isPrefixOf lower
              || "i cannot".toList.isPrefixOf lower then
            (none, false)
          else (none, true)

def safeJsonParse (text : String) : Option Json :=
  (safeJsonParseLog text).1

/-! ### Errors and the quota classifiers -/

/-- The nested `error` object some transports attach. -/
structure NestedErr where
  code : Option Int
  status : Option String

/-- The fields of a thrown error that the source inspects. -/
structure ErrObj where
  status : Option Int
  code : Option Int
  message : Option String
  statusText : Option String
  err : Option NestedErr

def optStrHas (o : Option String) (pat : String) : Bool :=
  match o with
  | some m => hasSub m pat
  | none => false

/-- The multi-signature rate-limit classifier of
`generateContentWithRetry` (lines 21-29). -/
def isQuotaError (e : ErrObj) : Bool :=
  e.status = some 429 || e.code = some 429 ||
    optStrHas e.message "429" || optStrHas e.message "Quota" ||
    optStrHas e.message "RESOURCE_EXHAUSTED" ||
    optStrHas e.statusText "RESOURCE_EXHAUSTED" ||
    (match e.err with | some n => n.code = some 429 | none => false) ||
    (match e.err with | some n => n.status = some "RESOURCE_EXHAUSTED" | none => false)

/-- The narrower catch-site classifier used by `fetchLiveNews` (line
285) and `getInfoFromCoordinates` (line 419). -/
def isQuotaCatch (e : ErrObj) : Bool :=
  optStrHas e.message "429" || optStrHas e.message "Quota" ||
    (match e.err with | some n => n.code = some 429 | none => false)

/-- A strict-mode TypeError from assigning a property on a primitive. -/
def typeErrObj : ErrObj :=
  ⟨none, none, some "TypeError: Cannot create property", none, none⟩

/-! ### `generateContentWithRetry` (lines 16-41)

The remote call is a parameter mapping the attempt index to its
outcome; the second component collects the backoff delays (ms) in the
order they were slept. -/

def generateContentWithRetry (call : Nat → Except ErrObj α) :
    Nat → Nat → Except ErrObj α × List Int
  | attempt, 0 =>
    match call attempt with
    | .ok v => (.ok v, [])
    | .error e => (.error e, [])
  | attempt, Nat.succ r =>
    match call attempt with
    | .ok v => (.ok v, [])
    | .error e =>
      if isQuotaError e then
        let delayMs : Int := 4000 * (4 - ((Nat.succ r : Nat) : Int))
        let res := generateContentWithRetry call (attempt + 1) r
        (res.1, delayMs :: res.2)
      else (.error e, [])

/-! ### Shared pieces of the orchestrators -/

/-- JavaScript `a || b` on a possibly-undefined value. -/
def jor (o : Option Json) (d : Json) : Json :=
  match o with
  | some x => if truthy x then x else d
  | none => d

def exMap (f : α → Except ε β) : List α → Except ε (List β)
  | [] => .ok []
  | x :: tl => do
    let y ← f x
    let ys ← exMap f tl
    pure (y :: ys)

def exMapIdx (f : Nat → α → Except ε β) : Nat → List α → Except ε (List β)
  | _, [] => .ok []
  | i, x :: tl => do
    let y ← f i x
    let ys ← exMapIdx f (i + 1) tl
    pure (y :: ys)

def exFilter (p : α → Except ε Bool) : List α → Except ε (List α)
  | [] => .ok []
  | x :: tl => do
    let b ← p x
    let ys ← exFilter p tl
    pure (if b then x :: ys else ys)

/-! ### `fetchLiveNews` (lines 216-298) -/

/-- `n.headline || "News Update"` and friends; reading a property of a
`null` array element throws. -/
def mapNewsItem (n : Json) : Except ErrObj Json :=
  match n with
  | .null => .error typeErrObj
  | _ => .ok (.obj
      [("headline", jor (jget n "headline") (.str "News Update")),
       ("summary", jor (jget n "summary") (.str "")),
       ("source", jor (jget n "source") (.str "Unknown")),
       ("url", jor (jget n "url") (.str ""))])

def isDotsStr : Json → Bool
  | .str s => s = "..."
  | _ => false

/-- The url filter of lines 276-282, with JavaScript's behavior on each
value shape: falsy urls fail fast; `length` of a non-string/non-array is
`undefined`, so `url.length < 10` is false; `includes`/`startsWith` on a
value without those methods throws. -/
def urlCheck (u : Json) : Except ErrObj Bool :=
  if ¬ truthy u then .ok false
  else
    match u with
    | .str s =>
      if s.toList.length < 10 then .ok false
      else if hasSub s "..." then .ok false
      else if ¬ "http".toList.isPrefixOf s.toList then .ok false
      else .ok true
    | .arr _ xs =>
      if xs.length < 10 then .ok false
      else if xs.any isDotsStr then .ok false
      else .error typeErrObj
    | _ => .error typeErrObj

/-- The synthetic quota-fallback item of lines 288-293. -/
def newsUnavailable : Json :=
  .obj [("headline", .str "News unavailable due to high traffic."),
        ("source", .str "System"),
        ("url", .str "#"),
        ("summary", .str "Please try again in a few moments.")]

set_option linter.unusedVariables false in
/-- Model of `fetchLiveNews`: the exclusion list reaches only the
prompt (see `fetchLiveNewsPrompt`), never the result processing. -/
def fetchLiveNews (exclude : List String) (outcome : Except ErrObj String) : List Json :=
  let res : Except ErrObj (List Json) := do
    let text ← outcome
    let data := safeJsonParse text
    let items : List Json :=
      match data with
      | none => []
      | some d =>
        if d.isArr then d.elems
        else if truthy d then
          match jget d "news" with
          | some nv => if truthy nv && nv.isArr then nv.elems else []
          | none => []
        else []
    let mapped ← exMap mapNewsItem items
    exFilter (fun n => urlCheck ((jget n "url").getD .null)) mapped
  match res with
  | .ok l => l
  | .error e => if isQuotaCatch e then [newsUnavailable] else []

/-- `exclude.slice(0, 10).map(s => ...).join(', ')` of line 220: each
seen headline is truncated to 50 characters, quoted, and suffixed with
an ellipsis. -/
def newsExcludeList (exclude : List String) : String :=
  String.intercalate ", "
    ((exclude.take 10).map
      (fun s => String.mk (qChar :: s.toList.take 50) ++ "..." ++ String.mk [qChar]))

/-- The conditional exclusion block of line 231. -/
def newsExcludeBlock (exclude : List String) : String :=
  if exclude.length > 0 then
    "IMPORTANT: The user has already seen stories with these headlines: ["
      ++ newsExcludeList exclude ++ "]. You MUST find DIFFERENT stories."
  else ""

/-- The news prompt template of lines 222-250 (braces of the format
example written with character escapes). -/
def fetchLiveNewsPrompt (currentDate query : String) (exclude : List String) : String :=
  "\n      Current Date: " ++ currentDate ++
  "\n      Task: Find " ++ toString (if exclude.length > 0 then 5 else 3) ++
  " distinct news articles related to: \"" ++ query ++ "\".\n      \n      Priority: " ++
  "\n      1. Live/Recent news (last 48 hours).\n      " ++
  "2. If no breaking news is found, find interesting recent feature stories, travel updates, or cultural articles about this location from the last few months." ++
  "\n      3. If absolutely no stories exist, return an empty array [].\n      \n      " ++
  newsExcludeBlock exclude ++
  "\n      \n      Instructions:\n      1. Use the Google Search tool to find real articles. Search for \"" ++
  query ++ " news\" or \"" ++ query ++ " recent stories\"." ++
  "\n      2. Return a strict JSON array of objects.\n      " ++
  "3. For \x27url\x27, use the actual link found in the search results. CRITICAL: Ensure the URL is valid, complete, and NOT truncated (do not end with \x27...\x27). If the URL is truncated in the source, try to find the full link or omit the article." ++
  "\n      4. **If the headline is in a foreign language, TRANSLATE it into English.**" ++
  "\n      5. \x27summary\x27: A short, engaging 1-2 sentence summary of what the article is about." ++
  "\n      6. Output ONLY the JSON array.\n      \n      Format:\n      [\n        \x7b\n          " ++
  "\"headline\": \"Headline text\",\n          \"summary\": \"Short summary of the article.\",\n          " ++
  "\"source\": \"News Source Name\",\n          \"url\": \"Full URL to the article\"\n        \x7d\n      ]\n    "

/-! ### `getInfoFromCoordinates` (lines 360-433) -/

def coordsJson (lat lng : Int) : Json :=
  .obj [("lat", .num lat), ("lng", .num lng)]

/-- The hard-coded default of lines 395-403, used when extraction
yields nothing usable. -/
def defaultInfo (lat lng : Int) : Json :=
  .obj [("name", .str "Unknown Location"),
        ("type", .str "Point of Interest"),
        ("description", .str "Information unavailable."),
        ("coordinates", coordsJson lat lng),
        ("funFacts", .arr [] []),
        ("news", .arr [] []),
        ("notable", .arr [] [])]

/-- The catch-path fallback of lines 421-431. -/
def fallbackInfo (lat lng : Int) (quota : Bool) : Json :=
  .obj [("name", .str (if quota then "System Busy (Quota)" else "Connection Error")),
        ("type", .str "Point of Interest"),
        ("description", .str (if quota then
          "The knowledge engine is currently experiencing high request volume. Please wait a few moments and try again."
          else "Could not retrieve information at this time.")),
        ("coordinates", coordsJson lat lng),
        ("funFacts", .arr [] []),
        ("news", .arr [] []),
        ("notable", .arr [] [])]

/-- The guard of line 406: `!data.coordinates ||
typeof data.coordinates.lat !== 'number'` is the overwrite condition;
this is its negation. -/
def coordsOk (data : Json) : Bool :=
  match jget data "coordinates" with
  | none => false
  | some c =>
    truthy c &&
      (match jget c "lat" with
       | some (.num _) => true
       | _ => false)

/-- `if (!data.k) data.k = v` in strict mode. -/
def fillIfFalsy (d : Json) (k : String) (v : Json) : Option Json :=
  match jget d k with
  | some x => if truthy x then some d else jset d k v
  | none => jset d k v

/-- The coercion block of lines 394-416; `none` is a thrown TypeError
(property assignment on a truthy primitive). -/
def coerceInfo (lat lng : Int) (d0 : Json) : Option Json := do
  let data := if truthy d0 then d0 else defaultInfo lat lng
  let data ← if coordsOk data then some data else jset data "coordinates" (coordsJson lat lng)
  let data ← fillIfFalsy data "description" (.str "Detailed description unavailable.")
  let data ← fillIfFalsy data "funFacts" (.arr [] [])
  let data ← fillIfFalsy data "notable" (.arr [] [])
  let data ← fillIfFalsy data "type" (.str "Point of Interest")
  let data ← jset data "news" (.arr [] [])
  pure data

/-- Model of `getInfoFromCoordinates`: total, returning either the
coerced parse result or the catch-path fallback. -/
def getInfoFromCoordinates (lat lng : Int) (outcome : Except ErrObj String) : Json :=
  let res : Except ErrObj Json :=
    match outcome with
    | .ok text =>
      match coerceInfo lat lng ((safeJsonParse text).getD .null) with
      | some d => .ok d
      | none => .error typeErrObj
    | .error e => .error e
  match res with
  | .ok d => d
  | .error e => fallbackInfo lat lng (isQuotaCatch e)

/-! ### `getNearbyPlaces` (lines 435-460) -/

def getNearbyPlaces (outcome : Except ErrObj String) : List Json :=
  match outcome with
  | .error _ => []
  | .ok text =>
    match safeJsonParse text with
    | none => []
    | some d =>
      if d.isArr then d.elems
      else if truthy d then
        match jget d "places" with
        | some p => if truthy p && p.isArr then p.elems else []
        | none => []
      else []

/-! ### `generateRoute` (lines 466-531) -/

structure Waypoint where
  id : String
  name : Json
  lat : Json
  lng : Json
  context : Json
  routeTitle : Option Json

def truthyArr (o : Option Json) : Bool :=
  match o with
  | some v => truthy v && v.isArr
  | none => false

def optElems (o : Option Json) : List Json :=
  match o with
  | some v => v.elems
  | none => []

def isObjTypeof : Json → Bool
  | .obj _ => true
  | .arr _ _ => true
  | _ => false

/-- Title and item extraction of lines 503-516, including the
unreachable bare-array fallback the source keeps after the
object branch. -/
def routeExtract (data : Option Json) : Option Json × List Json :=
  match data with
  | some d =>
    if truthy d && isObjTypeof d then
      let title :=
        match jget d "title" with
        | some t => if truthy t then some t else none
        | none => none
      let items :=
        if truthyArr (jget d "route") then optElems (jget d "route")
        else if truthyArr (jget d "locations") then optElems (jget d "locations")
        else if truthyArr (jget d "waypoints") then optElems (jget d "waypoints")
        else if d.isArr then d.elems
        else []
      (title, items)
    else if d.isArr then (none, d.elems)
    else (none, [])
  | none => (none, [])

/-- The waypoint constructor of lines 518-524; reading properties of a
`null` element throws. -/
def mapWaypoint (title : Option Json) (now : Int) (i : Nat) (item : Json) :
    Except ErrObj Waypoint :=
  match item with
  | .null => .error typeErrObj
  | _ => .ok
      ⟨"wp-" ++ toString i ++ "-" ++ toString now,
       jor (jget item "name") (.str "Unknown Waypoint"),
       jor (jget item "lat") (.num 0),
       jor (jget item "lng") (.num 0),
       jor (jget item "context") (.str ""),
       title⟩

/-- Strict `w.lat !== 0`: only the number zero fails it. -/
def strictNeZero : Json → Bool
  | .num n => n ≠ 0
  | _ => true

/-- Model of `generateRoute`; `now` stands for `Date.now()`. -/
def generateRoute (now : Int) (outcome : Except ErrObj String) : List Waypoint :=
  let res : Except ErrObj (List Waypoint) := do
    let text ← outcome
    let te := routeExtract (safeJsonParse text)
    let wps ← exMapIdx (mapWaypoint te.1 now) 0 te.2
    pure (wps.filter (fun w => strictNeZero w.lat || strictNeZero w.lng))
  match res with
  | .ok l => l
  | .error _ => []

/-! ### Round trip of the `JSON.stringify` model through `JSON.parse`

These lemmas establish that `JSONparse` inverts the serializer on
every pure JSON value; claim C4 builds on them. -/

theorem skipWs_cons_of_nonws {c : Char} (cs : List Char) (h : isJsonWs c = false) :
    skipWs (c :: cs) = c :: cs := by
  simp [skipWs, h]

theorem digitChar_toNat : ∀ m : Nat, m < 10 → (digitChar m).toNat = 48 + m := by decide

theorem digitChar_isDigit : ∀ m : Nat, m < 10 → isDigitCh (digitChar m) = true := by decide

theorem digitChar_ne_zero : ∀ m : Nat, m < 10 → 0 < m → ¬ digitChar m = '0' := by decide

theorem hexVal_hexChar : ∀ k : Nat, k < 16 → hexVal (hexChar k) = some k := by decide

/-- Fuel irrelevance and accumulator decomposition for the digit
printer. -/
theorem natDigitsF_decomp : ∀ m f acc, m < f →
    natDigitsF f m acc = natDigits m ++ acc := by
  intro m
  induction m using Nat.strong_induction_on with
  | _ m ih =>
    intro f acc hf
    match f, hf with
    | Nat.succ f', hf =>
      by_cases h10 : m < 10
      · simp [natDigitsF, natDigits, h10]
      · have hdiv : m / 10 < m := Nat.div_lt_self (by omega) (by omega)
        have h1 : m / 10 < f' := by
          have := Nat.div_mul_le_self m 10
          omega
        rw [natDigitsF, if_neg h10, ih (m / 10) hdiv f' _ h1]
        conv_rhs => rw [natDigits, natDigitsF, if_neg h10,
          ih (m / 10) hdiv m _ (by omega)]
        simp

theorem natDigits_lt10 {m : Nat} (h : m < 10) : natDigits m = [digitChar m] := by
  simp [natDigits, natDigitsF, h]

theorem natDigits_ge10 {m : Nat} (h : ¬ m < 10) :
    natDigits m = natDigits (m / 10) ++ [digitChar (m % 10)] := by
  have hdiv : m / 10 < m := Nat.div_lt_self (by omega) (by omega)
  conv_lhs => rw [natDigits, natDigitsF, if_neg h,
    natDigitsF_decomp (m / 10) m _ (by omega)]

theorem natDigits_all_digits : ∀ m, ∀ c ∈ natDigits m, isDigitCh c = true := by
  intro m
  induction m using Nat.strong_induction_on with
  | _ m ih =>
    by_cases h10 : m < 10
    · rw [natDigits_lt10 h10]
      intro c hc
      rw [List.mem_singleton] at hc
      subst hc
      exact digitChar_isDigit m h10
    · rw [natDigits_ge10 h10]
      intro c hc
      rcases List.mem_append.mp hc with h | h
      · exact ih (m / 10) (Nat.div_lt_self (by omega) (by omega)) c h
      · rw [List.mem_singleton] at h
        subst h
        exact digitChar_isDigit _ (Nat.mod_lt _ (by omega))

theorem natDigits_head_pos : ∀ m, 1 ≤ m →
    ∃ c cs, natDigits m = c :: cs ∧ isDigitCh c = true ∧ ¬ c = '0' := by
  intro m
  induction m using Nat.strong_induction_on with
  | _ m ih =>
    intro hm
    by_cases h10 : m < 10
    · exact ⟨digitChar m, [], natDigits_lt10 h10,
        digitChar_isDigit m h10, digitChar_ne_zero m h10 hm⟩
    · obtain ⟨c, cs, hcs, hdig, hne⟩ :=
        ih (m / 10) (Nat.div_lt_self (by omega) (by omega))
          (Nat.one_le_div_iff (by omega) |>.mpr (by omega))
      exact ⟨c, cs ++ [digitChar (m % 10)], by rw [natDigits_ge10 h10, hcs]; rfl,
        hdig, hne⟩

theorem readDigits_stop {rest : List Char} (a : Nat)
    (h : ∀ c, rest.head? = some c → isDigitCh c = false) :
    readDigits rest a = (a, rest) := by
  cases rest with
  | nil => rfl
  | cons c cs =>
    have := h c rfl
    simp [readDigits, this]

theorem readDigits_natDigits : ∀ m a tail,
    readDigits (natDigits m ++ tail) a =
      readDigits tail (a * 10 ^ (natDigits m).length + m) := by
  intro m
  induction m using Nat.strong_induction_on with
  | _ m ih =>
    intro a tail
    by_cases h10 : m < 10
    · rw [natDigits_lt10 h10]
      have h1 := digitChar_isDigit m h10
      have h2 := digitChar_toNat m h10
      simp [readDigits, h1, h2]
    · rw [natDigits_ge10 h10, List.length_append, List.append_assoc, List.cons_append,
        List.nil_append, ih (m / 10) (Nat.div_lt_self (by omega) (by omega))]
      have h1 := digitChar_isDigit (m % 10) (Nat.mod_lt _ (by omega))
      have h2 := digitChar_toNat (m % 10) (Nat.mod_lt _ (by omega))
      simp only [readDigits, h1, if_pos, h2, List.length_singleton, pow_succ, pow_one]
      have h3 : (a * (10 ^ (natDigits (m / 10)).length * 10) + m) =
          ((a * 10 ^ (natDigits (m / 10)).length + m / 10) * 10 + (48 + m % 10 - 48)) := by
        generalize (10:Nat) ^ (natDigits (m / 10)).length = t
        have h4 : a * (t * 10) = (a * t) * 10 := by ring
        rw [h4]
        omega
      rw [h3]

/-- Admissible continuations after a serialized value: end of input or a
separator/closer, none of which can extend a numeric token. -/
def sepOk : List Char → Prop
  | [] => True
  | c :: _ => c = ',' ∨ c = ']' ∨ c = cbChar

theorem sep_not_digit {rest : List Char} (h : sepOk rest) :
    ∀ c, rest.head? = some c → isDigitCh c = false := by
  cases rest with
  | nil => intro c hc; cases hc
  | cons c cs =>
    intro c' hc'
    cases hc'
    rcases h with h | h | h <;> subst h <;> decide

theorem char_ne_bounds {c : Char} (h48 : 48 ≤ c.toNat) (h57 : c.toNat ≤ 57) :
    ∀ d : Char, d.toNat < 48 ∨ 57 < d.toNat → ¬ c = d := by
  intro d hd he
  subst he
  omega

theorem digit_facts {c : Char} (h : isDigitCh c = true) :
    isJsonWs c = false ∧ ¬c = 'n' ∧ ¬c = 't' ∧ ¬c = 'f' ∧ ¬c = qChar ∧
      ¬c = '[' ∧ ¬c = obChar ∧ ¬c = '-' := by
  have hb : 48 ≤ c.toNat ∧ c.toNat ≤ 57 := by
    simpa [isDigitCh] using h
  have hne := char_ne_bounds hb.1 hb.2
  refine ⟨?_, hne _ (by decide), hne _ (by decide), hne _ (by decide),
    hne _ (by decide), hne _ (by decide), hne _ (by decide), hne _ (by decide)⟩
  simp only [isJsonWs, Bool.or_eq_false_iff, decide_eq_false_iff_not]
  exact ⟨⟨⟨hne _ (by decide), hne _ (by decide)⟩, hne _ (by decide)⟩, hne _ (by decide)⟩

theorem parseValCore_digit (f : Nat) (c : Char) (rest : List Char)
    (hdig : isDigitCh c = true) (hne0 : ¬ c = '0') :
    parseValCore f c rest =
      some (.num ((readDigits (c :: rest) 0).1 : Int), (readDigits (c :: rest) 0).2) := by
  have hfacts := digit_facts hdig
  rw [parseValCore.eq_def, if_neg hfacts.2.1, if_neg hfacts.2.2.1, if_neg hfacts.2.2.2.1,
    if_neg hfacts.2.2.2.2.1, if_neg hfacts.2.2.2.2.2.1, if_neg hfacts.2.2.2.2.2.2.1,
    if_neg hfacts.2.2.2.2.2.2.2, if_neg hne0, if_pos hdig]

theorem readDigits_full {m : Nat} {ds rest : List Char} (hds : natDigits m = ds)
    (hsep : sepOk rest) :
    readDigits (ds ++ rest) 0 = (m, rest) := by
  subst hds
  rw [readDigits_natDigits, readDigits_stop _ (sep_not_digit hsep)]
  simp

theorem parseVal_serInt (n : Int) (rest : List Char) (f : Nat) (hsep : sepOk rest) :
    parseVal (f + 1) (serInt n ++ rest) = some (.num n, rest) := by
  by_cases hneg : n < 0
  · have hm : 1 ≤ n.natAbs := by omega
    obtain ⟨c, cs, hcs, hdig, hne0⟩ := natDigits_head_pos n.natAbs hm
    rw [serInt, if_pos hneg, hcs]
    show parseVal (f + 1) ('-' :: (c :: cs ++ rest)) = _
    rw [parseVal_succ f _ (skipWs_cons_of_nonws _ (by decide))]
    rw [parseValCore.eq_def]
    simp only [show ¬(('-' : Char) = 'n') by decide, show ¬(('-' : Char) = 't') by decide,
      show ¬(('-' : Char) = 'f') by decide, show ¬(('-' : Char) = qChar) by decide,
      show ¬(('-' : Char) = '[') by decide, show ¬(('-' : Char) = obChar) by decide,
      if_false, if_neg, ite_false, if_pos, if_true, eq_self_iff_true]
    split
    next c2 rest2 heq =>
      injection heq with h1 h2
      subst h1
      subst h2
      rw [if_neg hne0, if_pos hdig]
      have hrd := readDigits_full hcs hsep
      rw [List.cons_append] at hrd
      simp only [List.append_eq, hrd]
      have hval : -((n.natAbs : Nat) : Int) = n := by omega
      rw [hval]
    next heq => exact absurd heq (by simp)
  · push_neg at hneg
    rw [serInt, if_neg (by omega)]
    by_cases h0 : n.toNat = 0
    · have hn0 : n = 0 := by omega
      rw [h0, natDigits_lt10 (by omega)]
      subst hn0
      show parseVal (f + 1) ('0' :: rest) = _
      rw [parseVal_succ f _ (skipWs_cons_of_nonws _ (by decide))]
      rw [parseValCore.eq_def]
      norm_num
      rfl
    · obtain ⟨c, cs, hcs, hdig, hne0⟩ := natDigits_head_pos n.toNat (by omega)
      rw [hcs, List.cons_append,
        parseVal_succ f _ (skipWs_cons_of_nonws _ (digit_facts hdig).1),
        parseValCore_digit f c _ hdig hne0]
      have hrd := readDigits_full hcs hsep
      rw [List.cons_append] at hrd
      rw [hrd]
      have hval : ((n.toNat : Nat) : Int) = n := by omega
      rw [hval]

theorem serStrBody_cons (c : Char) (l : List Char) :
    serStrBody (c :: l) = escapeChar c ++ serStrBody l := by
  simp [serStrBody]

theorem bs_ne_q : ¬ (bsChar = qChar) := by decide

theorem escLitFacts : ∀ e : Char, e ∈ ['/', 'n', 'r', 't', 'b', 'f', 'u'] →
    ¬ (e = qChar) ∧ ¬ (e = bsChar) := by decide

theorem parseStrAux_escape : ∀ (l acc rest : List Char),
    parseStrAux acc (serStrBody l ++ qChar :: rest) = some (acc.reverse ++ l, rest) := by
  intro l
  induction l with
  | nil =>
    intro acc rest
    rw [show serStrBody [] = [] from rfl, List.nil_append, parseStrAux.eq_def]
    simp
  | cons c l' ih =>
    intro acc rest
    rw [serStrBody_cons, List.append_assoc]
    by_cases h1 : c = qChar
    · subst h1
      rw [show escapeChar qChar = [bsChar, qChar] from rfl]
      simp only [List.cons_append, List.nil_append]
      rw [parseStrAux.eq_def]
      simp [ih, bs_ne_q]
    · by_cases h2 : c = bsChar
      · subst h2
        rw [show escapeChar bsChar = [bsChar, bsChar] from rfl]
        simp only [List.cons_append, List.nil_append]
        rw [parseStrAux.eq_def]
        simp [ih, bs_ne_q]
      · by_cases h3 : c = nlChar
        · subst h3
          rw [show escapeChar nlChar = [bsChar, 'n'] from rfl]
          simp only [List.cons_append, List.nil_append]
          rw [parseStrAux.eq_def]
          simp [ih, bs_ne_q, (escLitFacts 'n' (by decide)).1, (escLitFacts 'n' (by decide)).2]
        · by_cases h4 : c = crChar
          · subst h4
            rw [show escapeChar crChar = [bsChar, 'r'] from rfl]
            simp only [List.cons_append, List.nil_append]
            rw [parseStrAux.eq_def]
            simp [ih, bs_ne_q, (escLitFacts 'r' (by decide)).1, (escLitFacts 'r' (by decide)).2]
          · by_cases h5 : c = tabChar
            · subst h5
              rw [show escapeChar tabChar = [bsChar, 't'] from rfl]
              simp only [List.cons_append, List.nil_append]
              rw [parseStrAux.eq_def]
              simp [ih, bs_ne_q, (escLitFacts 't' (by decide)).1, (escLitFacts 't' (by decide)).2]
            · by_cases h6 : c = Char.ofNat 8
              · subst h6
                rw [show escapeChar (Char.ofNat 8) = [bsChar, 'b'] from rfl]
                simp only [List.cons_append, List.nil_append]
                rw [parseStrAux.eq_def]
                simp [ih, bs_ne_q, (escLitFacts 'b' (by decide)).1, (escLitFacts 'b' (by decide)).2]
              · by_cases h7 : c = Char.ofNat 12
                · subst h7
                  rw [show escapeChar (Char.ofNat 12) = [bsChar, 'f'] from rfl]
                  simp only [List.cons_append, List.nil_append]
                  rw [parseStrAux.eq_def]
                  simp [ih, bs_ne_q, (escLitFacts 'f' (by decide)).1, (escLitFacts 'f' (by decide)).2]
                · by_cases h8 : c.toNat < 32
                  · rw [escapeChar, if_neg h1, if_neg h2, if_neg h3, if_neg h4, if_neg h5,
                      if_neg h6, if_neg h7, if_pos h8]
                    have hhi : c.toNat / 16 < 16 := by omega
                    have hlo : c.toNat % 16 < 16 := by omega
                    have e1 := hexVal_hexChar _ hhi
                    have e2 := hexVal_hexChar _ hlo
                    simp only [List.cons_append, List.nil_append]
                    rw [parseStrAux.eq_def]
                    simp only [show ¬(bsChar = qChar) from by decide,
                      show (bsChar = bsChar) from rfl,
                      show ¬(('u' : Char) = qChar) from by decide,
                      show ¬(('u' : Char) = bsChar) from by decide,
                      show ¬(('u' : Char) = '/') from by decide,
                      show ¬(('u' : Char) = 'n') from by decide,
                      show ¬(('u' : Char) = 'r') from by decide,
                      show ¬(('u' : Char) = 't') from by decide,
                      show ¬(('u' : Char) = 'b') from by decide,
                      show ¬(('u' : Char) = 'f') from by decide,
                      if_neg, if_pos, ite_true, ite_false, not_false_eq_true, if_true]
                    rw [show hexVal '0' = some 0 from by decide, e1, e2]
                    simp only []
                    have hn : ((0 * 16 + 0) * 16 + c.toNat / 16) * 16 + c.toNat % 16 = c.toNat := by
                      omega
                    rw [hn, if_pos (by omega), Char.ofNat_toNat, ih]
                    simp
                  · rw [escapeChar, if_neg h1, if_neg h2, if_neg h3, if_neg h4, if_neg h5,
                      if_neg h6, if_neg h7, if_neg h8]
                    simp only [List.cons_append, List.nil_append]
                    rw [parseStrAux.eq_def]
                    simp only [if_neg h1, if_neg h2, if_neg (show ¬ c.toNat < 32 from h8)]
                    rw [ih]
                    simp

theorem string_mk_toList (s : String) : String.mk s.toList = s := rfl

theorem parseValCore_str (f : Nat) (s : String) (rest : List Char) :
    parseValCore f qChar (serStrBody s.toList ++ qChar :: rest) = some (.str s, rest) := by
  rw [parseValCore.eq_def]
  simp only [show ¬(qChar = 'n') from by decide, show ¬(qChar = 't') from by decide,
    show ¬(qChar = 'f') from by decide, ite_false, if_neg, not_false_eq_true, ite_true, if_pos]
  rw [parseStrAux_escape]
  simp [string_mk_toList]

/-- The first character of any serialized pure value: never whitespace,
never a separator or closer. -/
theorem serValF_head : ∀ (g : Nat) (v : Json), jsonPure g v = true →
    ∃ c cs, serValF g v = c :: cs ∧ isJsonWs c = false ∧
      ¬ c = ']' ∧ ¬ c = cbChar ∧ ¬ c = ',' := by
  intro g v hp
  match g, hp with
  | Nat.succ g, hp =>
    cases v with
    | null => exact ⟨'n', _, rfl, by decide, by decide, by decide, by decide⟩
    | bool b =>
      cases b with
      | true => exact ⟨'t', _, rfl, by decide, by decide, by decide, by decide⟩
      | false => exact ⟨'f', _, rfl, by decide, by decide, by decide, by decide⟩
    | num n =>
      rw [show serValF (Nat.succ g) (.num n) = serInt n from rfl]
      by_cases hneg : n < 0
      · exact ⟨'-', _, by rw [serInt, if_pos hneg], by decide, by decide, by decide, by decide⟩
      · rw [serInt, if_neg hneg]
        by_cases h0 : n.toNat < 10
        · refine ⟨digitChar n.toNat, [], by rw [natDigits_lt10 h0], ?_, ?_, ?_, ?_⟩
          · exact (digit_facts (digitChar_isDigit _ h0)).1
          · have hb : 48 ≤ (digitChar n.toNat).toNat ∧ (digitChar n.toNat).toNat ≤ 57 := by
              rw [digitChar_toNat _ h0]; omega
            exact char_ne_bounds hb.1 hb.2 _ (by decide)
          · have hb : 48 ≤ (digitChar n.toNat).toNat ∧ (digitChar n.toNat).toNat ≤ 57 := by
              rw [digitChar_toNat _ h0]; omega
            exact char_ne_bounds hb.1 hb.2 _ (by decide)
          · have hb : 48 ≤ (digitChar n.toNat).toNat ∧ (digitChar n.toNat).toNat ≤ 57 := by
              rw [digitChar_toNat _ h0]; omega
            exact char_ne_bounds hb.1 hb.2 _ (by decide)
        · obtain ⟨c, cs, hcs, hdig, _⟩ := natDigits_head_pos n.toNat (by omega)
          have hb : 48 ≤ c.toNat ∧ c.toNat ≤ 57 := by
            simpa [isDigitCh] using hdig
          exact ⟨c, cs, hcs, (digit_facts hdig).1,
            char_ne_bounds hb.1 hb.2 _ (by decide),
            char_ne_bounds hb.1 hb.2 _ (by decide),
            char_ne_bounds hb.1 hb.2 _ (by decide)⟩
    | str s =>
      exact ⟨qChar, _, rfl, by decide, by decide, by decide, by decide⟩
    | arr props xs =>
      exact ⟨'[', _, rfl, by decide, by decide, by decide, by decide⟩
    | obj fs =>
      exact ⟨obChar, _, rfl, by decide, by decide, by decide, by decide⟩

theorem sepOk_comma (X : List Char) : sepOk (',' :: X) := Or.inl rfl

theorem sepOk_rbrk (X : List Char) : sepOk (']' :: X) := Or.inr (Or.inl rfl)

theorem sepOk_rbrc (X : List Char) : sepOk (cbChar :: X) := Or.inr (Or.inr rfl)

theorem parseItems_succ (f : Nat) (cs : List Char) :
    parseItems (Nat.succ f) cs =
      (match parseVal f cs with
       | some (v, rest) =>
         match skipWs rest with
         | c :: rest2 =>
           if c = ',' then
             match parseItems f rest2 with
             | some (.arr props vs, rest3) => some (.arr props (v :: vs), rest3)
             | _ => none
           else if c = ']' then some (.arr [] [v], rest2)
           else none
         | [] => none
       | none => none) := by
  rw [parseItems.eq_def]

theorem parseFields_succ (f : Nat) (cs : List Char) :
    parseFields (Nat.succ f) cs =
      (match skipWs cs with
       | c :: rest =>
         if c = qChar then
           match parseStrAux [] rest with
           | some (key, rest2) =>
             match skipWs rest2 with
             | c2 :: rest3 =>
               if c2 = ':' then
                 match parseVal f rest3 with
                 | some (v, rest4) =>
                   match skipWs rest4 with
                   | c3 :: rest5 =>
                     if c3 = ',' then
                       match parseFields f rest5 with
                       | some (.obj fs, rest6) => some (.obj ((String.mk key, v) :: fs), rest6)
                       | _ => none
                     else if c3 = cbChar then some (.obj [(String.mk key, v)], rest5)
                     else none
                   | [] => none
                 | none => none
               else none
             | [] => none
           | none => none
         else none
       | [] => none) := by
  rw [parseFields.eq_def]

theorem skipWs_comma (cs : List Char) : skipWs (',' :: cs) = ',' :: cs :=
  skipWs_cons_of_nonws _ (by decide)

theorem skipWs_rbrk (cs : List Char) : skipWs (']' :: cs) = ']' :: cs :=
  skipWs_cons_of_nonws _ (by decide)

theorem skipWs_rbrc (cs : List Char) : skipWs (cbChar :: cs) = cbChar :: cs :=
  skipWs_cons_of_nonws _ (by decide)

theorem skipWs_colon (cs : List Char) : skipWs (':' :: cs) = ':' :: cs :=
  skipWs_cons_of_nonws _ (by decide)

theorem comma_ne_rbrk : ¬((',' : Char) = ']') := by decide

theorem rbrk_ne_comma : ¬((']' : Char) = ',') := by decide

theorem rbrc_ne_comma : ¬(cbChar = ',') := by decide

/-- Round trip: parsing a serialized pure JSON value returns exactly
that value, leaving the continuation untouched, at any parser fuel
above the serialization length. -/
theorem parseVal_serValF : ∀ (g : Nat) (v : Json), jsonPure g v = true →
    ∀ (rest : List Char) (f : Nat), (serValF g v).length < f → sepOk rest →
    parseVal f (serValF g v ++ rest) = some (v, rest) := by
  intro g
  induction g with
  | zero => intro v hp; simp [jsonPure] at hp
  | succ g ih =>
    intro v hp rest f hf hsep
    match v with
    | .null =>
      rw [show serValF (Nat.succ g) .null = ['n', 'u', 'l', 'l'] from rfl] at hf ⊢
      match f, hf with
      | Nat.succ f', _ =>
        simp only [List.cons_append, List.nil_append]
        rw [parseVal_succ f' _ (skipWs_cons_of_nonws _ (by decide)), parseValCore.eq_def]
        simp
    | .bool true =>
      rw [show serValF (Nat.succ g) (.bool true) = ['t', 'r', 'u', 'e'] from rfl] at hf ⊢
      match f, hf with
      | Nat.succ f', _ =>
        simp only [List.cons_append, List.nil_append]
        rw [parseVal_succ f' _ (skipWs_cons_of_nonws _ (by decide)), parseValCore.eq_def]
        simp [show ¬(('t' : Char) = 'n') from by decide]
    | .bool false =>
      rw [show serValF (Nat.succ g) (.bool false) = ['f', 'a', 'l', 's', 'e'] from rfl] at hf ⊢
      match f, hf with
      | Nat.succ f', _ =>
        simp only [List.cons_append, List.nil_append]
        rw [parseVal_succ f' _ (skipWs_cons_of_nonws _ (by decide)), parseValCore.eq_def]
        simp [show ¬(('f' : Char) = 'n') from by decide, show ¬(('f' : Char) = 't') from by decide]
    | .num n =>
      rw [show serValF (Nat.succ g) (.num n) = serInt n from rfl] at hf ⊢
      have hlen : 1 ≤ (serInt n).length := by
        obtain ⟨c, cs, hcs, _⟩ := serValF_head (Nat.succ g) (.num n) hp
        rw [show serValF (Nat.succ g) (.num n) = serInt n from rfl] at hcs
        rw [hcs]
        simp
      match f, (by omega : 1 < f) with
      | Nat.succ f', _ => exact parseVal_serInt n rest f' hsep
    | .str s =>
      rw [show serValF (Nat.succ g) (.str s) = qChar :: serStrBody s.toList ++ [qChar] from rfl]
        at hf ⊢
      match f, hf with
      | Nat.succ f', _ =>
        have harr : (qChar :: serStrBody s.toList ++ [qChar]) ++ rest =
            qChar :: (serStrBody s.toList ++ qChar :: rest) := by simp
        rw [harr, parseVal_succ f' _ (skipWs_cons_of_nonws _ (by decide)), parseValCore_str]
    | .arr props xs =>
      have hp' : (props.isEmpty && xs.all (jsonPure g)) = true := hp
      rw [Bool.and_eq_true, List.isEmpty_iff] at hp'
      obtain ⟨hprops, hall⟩ := hp'
      subst hprops
      match xs, hall with
      | [], _ =>
        rw [show serValF (Nat.succ g) (.arr [] []) = ['[', ']'] from rfl] at hf ⊢
        match f, hf with
        | Nat.succ f', _ =>
          simp only [List.cons_append, List.nil_append]
          rw [parseVal_succ f' _ (skipWs_cons_of_nonws _ (by decide)), parseValCore.eq_def]
          simp only [show ¬(('[' : Char) = 'n') from by decide,
            show ¬(('[' : Char) = 't') from by decide, show ¬(('[' : Char) = 'f') from by decide,
            show ¬(('[' : Char) = qChar) from by decide, ite_false, ite_true, if_neg, if_pos,
            not_false_eq_true]
          rw [skipWs_rbrk]
          simp
      | x :: tl, hall =>
        have hitems : ∀ ys, ys ≠ [] → ys.all (jsonPure g) = true →
            ∀ rest2 fi, (joinComma (ys.map (serValF g))).length + 1 < fi → sepOk rest2 →
            parseItems fi (joinComma (ys.map (serValF g)) ++ ']' :: rest2) =
              some (.arr [] ys, rest2) := by
          intro ys
          induction ys with
          | nil => intro h; exact absurd rfl h
          | cons y tys ihy =>
            intro _ hall2 rest2 fi hfi hsep2
            rw [List.all_cons, Bool.and_eq_true] at hall2
            obtain ⟨hy, htys⟩ := hall2
            obtain ⟨c0, cs0, hser0, hws0, hnb0, hnc0, hncm0⟩ := serValF_head g y hy
            have hylen : 1 ≤ (serValF g y).length := by rw [hser0]; simp
            match tys, htys with
            | [], _ =>
              rw [show joinComma ([y].map (serValF g)) = serValF g y from rfl] at hfi ⊢
              match fi, hfi with
              | Nat.succ fi', hfi =>
                rw [parseItems_succ,
                  ih y hy (']' :: rest2) fi' (by omega) (sepOk_rbrk rest2)]
                simp [skipWs_rbrk, rbrk_ne_comma]
            | z :: tz, htys =>
              rw [show joinComma ((y :: z :: tz).map (serValF g)) =
                  serValF g y ++ ',' :: joinComma ((z :: tz).map (serValF g)) from rfl] at hfi ⊢
              match fi, hfi with
              | Nat.succ fi', hfi =>
                simp only [List.length_append, List.length_cons] at hfi
                rw [parseItems_succ, List.append_assoc, List.cons_append,
                  ih y hy _ fi' (by omega) (sepOk_comma _)]
                simp only [skipWs_comma, ite_true, if_pos]
                rw [ihy (by simp) htys rest2 fi' (by omega) hsep2]
        rw [show serValF (Nat.succ g) (.arr [] (x :: tl)) =
            '[' :: joinComma ((x :: tl).map (serValF g)) ++ [']'] from rfl] at hf ⊢
        simp only [List.length_append, List.length_cons] at hf
        match f, hf with
        | Nat.succ f', hf =>
          have harr : ('[' :: joinComma ((x :: tl).map (serValF g)) ++ [']']) ++ rest =
              '[' :: (joinComma ((x :: tl).map (serValF g)) ++ ']' :: rest) := by simp
          rw [harr, parseVal_succ f' _ (skipWs_cons_of_nonws _ (by decide)), parseValCore.eq_def]
          simp only [show ¬(('[' : Char) = 'n') from by decide,
            show ¬(('[' : Char) = 't') from by decide, show ¬(('[' : Char) = 'f') from by decide,
            show ¬(('[' : Char) = qChar) from by decide, ite_false, ite_true, if_neg, if_pos,
            not_false_eq_true]
          rw [List.all_cons, Bool.and_eq_true] at hall
          obtain ⟨hx, htl⟩ := hall
          obtain ⟨c0, cs0, hser0, hws0, hnb0, hnc0, hncm0⟩ := serValF_head g x hx
          have hjoin : ∃ T, joinComma ((x :: tl).map (serValF g)) ++ ']' :: rest = c0 :: T := by
            cases tl with
            | nil =>
              exact ⟨cs0 ++ ']' :: rest, by
                rw [show joinComma ([x].map (serValF g)) = serValF g x from rfl, hser0]; simp⟩
            | cons z tz =>
              exact ⟨cs0 ++ ',' :: joinComma ((z :: tz).map (serValF g)) ++ ']' :: rest, by
                rw [show joinComma ((x :: z :: tz).map (serValF g)) =
                  serValF g x ++ ',' :: joinComma ((z :: tz).map (serValF g)) from rfl, hser0]
                simp⟩
          obtain ⟨T, hT⟩ := hjoin
          rw [hT, skipWs_cons_of_nonws _ hws0]
          simp only [hnb0, ite_false, if_neg, not_false_eq_true]
          rw [← hT]
          exact hitems (x :: tl) (by simp) (by simp [hx, htl]) rest f' (by omega) hsep
    | .obj fs =>
      have hall : fs.all (fun p => jsonPure g p.2) = true := hp
      match fs, hall with
      | [], _ =>
        rw [show serValF (Nat.succ g) (.obj []) = [obChar, cbChar] from rfl] at hf ⊢
        match f, hf with
        | Nat.succ f', _ =>
          simp only [List.cons_append, List.nil_append]
          rw [parseVal_succ f' _ (skipWs_cons_of_nonws _ (by decide)), parseValCore.eq_def]
          simp only [show ¬(obChar = 'n') from by decide,
            show ¬(obChar = 't') from by decide, show ¬(obChar = 'f') from by decide,
            show ¬(obChar = qChar) from by decide, show ¬(obChar = '[') from by decide,
            ite_false, ite_true, if_neg, if_pos, not_false_eq_true]
          rw [skipWs_rbrc]
          simp
      | (k, w) :: tl, hall =>
        have hfields : ∀ ys, ys ≠ [] → ys.all (fun p => jsonPure g p.2) = true →
            ∀ rest2 fi,
            (joinComma (ys.map (fun p => serStr p.1.toList ++ ':' :: serValF g p.2))).length + 1
              < fi → sepOk rest2 →
            parseFields fi
              (joinComma (ys.map (fun p => serStr p.1.toList ++ ':' :: serValF g p.2))
                ++ cbChar :: rest2) = some (.obj ys, rest2) := by
          intro ys
          induction ys with
          | nil => intro h; exact absurd rfl h
          | cons p tys ihy =>
            intro _ hall2 rest2 fi hfi hsep2
            rw [List.all_cons, Bool.and_eq_true] at hall2
            obtain ⟨hy, htys⟩ := hall2
            obtain ⟨ky, wy⟩ := p
            obtain ⟨c0, cs0, hser0, hws0, hnb0, hnc0, hncm0⟩ := serValF_head g wy hy
            have hylen : 1 ≤ (serValF g wy).length := by rw [hser0]; simp
            match tys, htys with
            | [], _ =>
              rw [show joinComma ([(ky, wy)].map
                    (fun p => serStr p.1.toList ++ ':' :: serValF g p.2)) =
                  serStr ky.toList ++ ':' :: serValF g wy from rfl] at hfi ⊢
              rw [serStr] at hfi ⊢
              match fi, hfi with
              | Nat.succ fi', hfi =>
                simp only [List.length_append, List.length_cons] at hfi
                have hshape : ((qChar :: serStrBody ky.toList ++ [qChar]) ++ ':' :: serValF g wy)
                    ++ cbChar :: rest2 =
                    qChar :: (serStrBody ky.toList ++
                      qChar :: (':' :: (serValF g wy ++ cbChar :: rest2))) := by
                  simp
                rw [parseFields_succ, hshape, skipWs_cons_of_nonws _ (by decide)]
                simp only [ite_true, if_pos]
                rw [parseStrAux_escape]
                simp only [List.reverse_nil, List.nil_append]
                rw [skipWs_colon]
                simp only [ite_true, if_pos]
                rw [ih wy hy (cbChar :: rest2) fi' (by omega) (sepOk_rbrc rest2),
                  string_mk_toList]
                simp [skipWs_rbrc, rbrc_ne_comma]
            | q :: tq, htys =>
              rw [show joinComma (((ky, wy) :: q :: tq).map
                    (fun p => serStr p.1.toList ++ ':' :: serValF g p.2)) =
                  (serStr ky.toList ++ ':' :: serValF g wy) ++ ',' ::
                    joinComma ((q :: tq).map (fun p => serStr p.1.toList ++ ':' :: serValF g p.2))
                  from rfl] at hfi ⊢
              rw [serStr] at hfi ⊢
              match fi, hfi with
              | Nat.succ fi', hfi =>
                simp only [List.length_append, List.length_cons] at hfi
                have hshape : (((qChar :: serStrBody ky.toList ++ [qChar]) ++ ':' :: serValF g wy)
                    ++ ',' :: joinComma ((q :: tq).map
                      (fun p => serStr p.1.toList ++ ':' :: serValF g p.2))) ++ cbChar :: rest2 =
                    qChar :: (serStrBody ky.toList ++
                      qChar :: (':' :: (serValF g wy ++ ',' ::
                        (joinComma ((q :: tq).map
                          (fun p => serStr p.1.toList ++ ':' :: serValF g p.2))
                          ++ cbChar :: rest2)))) := by
                  simp
                rw [parseFields_succ, hshape, skipWs_cons_of_nonws _ (by decide)]
                simp only [ite_true, if_pos]
                rw [parseStrAux_escape]
                simp only [List.reverse_nil, List.nil_append]
                rw [skipWs_colon]
                simp only [ite_true, if_pos]
                rw [ih wy hy _ fi' (by omega) (sepOk_comma _)]
                simp only [skipWs_comma, ite_true, if_pos]
                rw [ihy (by simp) htys rest2 fi' (by omega) hsep2, string_mk_toList]
        rw [show serValF (Nat.succ g) (.obj ((k, w) :: tl)) =
            obChar :: joinComma (((k, w) :: tl).map
              (fun p => serStr p.1.toList ++ ':' :: serValF g p.2)) ++ [cbChar] from rfl] at hf ⊢
        simp only [List.length_append, List.length_cons] at hf
        match f, hf with
        | Nat.succ f', hf =>
          have harr : (obChar :: joinComma (((k, w) :: tl).map
                (fun p => serStr p.1.toList ++ ':' :: serValF g p.2)) ++ [cbChar]) ++ rest =
              obChar :: (joinComma (((k, w) :: tl).map
                (fun p => serStr p.1.toList ++ ':' :: serValF g p.2)) ++ cbChar :: rest) := by
            simp
          rw [harr, parseVal_succ f' _ (skipWs_cons_of_nonws _ (by decide)), parseValCore.eq_def]
          simp only [show ¬(obChar = 'n') from by decide,
            show ¬(obChar = 't') from by decide, show ¬(obChar = 'f') from by decide,
            show ¬(obChar = qChar) from by decide, show ¬(obChar = '[') from by decide,
            ite_false, ite_true, if_neg, if_pos, not_false_eq_true]
          have hjoin : ∃ T, joinComma (((k, w) :: tl).map
                (fun p => serStr p.1.toList ++ ':' :: serValF g p.2)) ++ cbChar :: rest =
              qChar :: T := by
            cases tl with
            | nil =>
              refine ⟨serStrBody k.toList ++ qChar :: ':' :: (serValF g w ++ cbChar :: rest), ?_⟩
              rw [show joinComma ([(k, w)].map
                    (fun p => serStr p.1.toList ++ ':' :: serValF g p.2)) =
                  serStr k.toList ++ ':' :: serValF g w from rfl, serStr]
              simp
            | cons q tq =>
              refine ⟨serStrBody k.toList ++ qChar :: ':' :: (serValF g w ++ ',' ::
                (joinComma ((q :: tq).map (fun p => serStr p.1.toList ++ ':' :: serValF g p.2))
                  ++ cbChar :: rest)), ?_⟩
              rw [show joinComma (((k, w) :: q :: tq).map
                    (fun p => serStr p.1.toList ++ ':' :: serValF g p.2)) =
                  (serStr k.toList ++ ':' :: serValF g w) ++ ',' ::
                    joinComma ((q :: tq).map (fun p => serStr p.1.toList ++ ':' :: serValF g p.2))
                  from rfl, serStr]
              simp
          obtain ⟨T, hT⟩ := hjoin
          rw [hT, skipWs_cons_of_nonws _ (by decide)]
          simp only [show ¬(qChar = cbChar) from by decide, ite_false, if_neg,
            not_false_eq_true]
          rw [← hT]
          exact hfields ((k, w) :: tl) (by simp) hall rest f' (by omega) hsep

/-- `JSON.parse` inverts `JSON.stringify` on pure JSON values. -/
theorem JSONparse_stringify (g : Nat) (v : Json) (hp : jsonPure g v = true) :
    JSONparse (JSONstringifyF g v) = some v := by
  have hl : (JSONstringifyF g v).toList = serValF g v := rfl
  rw [JSONparse, hl]
  have h := parseVal_serValF g v hp [] (2 * (serValF g v).length + 2) (by omega) trivial
  rw [List.append_nil] at h
  rw [h]
  rfl

/-- First-fence capture: a fenced block opening with ` ```json ` and
closing with the first later triple backtick captures exactly the text
between, provided the body has no backtick. -/
theorem captureTo3_clean : ∀ (a tail : List Char), btChar ∉ a →
    captureTo3 (a ++ btChar :: btChar :: btChar :: tail) = some a := by
  intro a
  induction a with
  | nil =>
    intro tail _
    rw [List.nil_append, captureTo3]
    simp [startsBt3]
  | cons c a' iha =>
    intro tail hbt
    rw [List.mem_cons, not_or] at hbt
    obtain ⟨hc, ha'⟩ := hbt
    rw [List.cons_append, captureTo3]
    have hs : startsBt3 (c :: (a' ++ btChar :: btChar :: btChar :: tail)) = false := by
      cases a' with
      | nil => simp [startsBt3, Ne.symm hc]
      | cons d a'' =>
        cases a'' with
        | nil => simp [startsBt3, Ne.symm hc]
        | cons e a''' => simp [startsBt3, Ne.symm hc]
    rw [if_neg (by simp [hs]), iha tail ha']
    rfl

/-- The fence regex on a well-formed ` ```json ` block whose body
contains no backtick: the capture is exactly the body. -/
theorem fenceSearch_wrap (s : List Char) (hbt : btChar ∉ s) :
    fenceSearch (btChar :: btChar :: btChar :: 'j' :: 's' :: 'o' :: 'n' :: nlChar ::
      (s ++ nlChar :: btChar :: btChar :: btChar :: [])) =
      some (nlChar :: (s ++ [nlChar])) := by
  rw [fenceSearch.eq_def]
  simp only [startsBt3, List.drop_succ_cons, List.drop_zero, ite_true, if_pos,
    Bool.and_self]
  have hmass : nlChar :: (s ++ nlChar :: btChar :: btChar :: btChar :: []) =
      (nlChar :: (s ++ [nlChar])) ++ btChar :: btChar :: btChar :: [] := by
    simp
  rw [hmass, captureTo3_clean _ _ (by
    rw [List.mem_cons, List.mem_append, List.mem_singleton]
    push_neg
    exact ⟨by decide, hbt, by decide⟩)]
  simp

theorem string_append_toList (a b : String) : (a ++ b).toList = a.toList ++ b.toList :=
  String.data_append a b

theorem string_mk_inj {a b : List Char} (h : a = b) : String.mk a = String.mk b := by
  rw [h]

/-- Full fenced round trip, stated over the extractor itself: on a
fenced serialization whose body survives `cleanJsonString` unchanged
and contains no backtick, strategy 1 of `safeJsonParse` returns the
original value. -/
theorem safeJsonParse_fenced (g : Nat) (v : Json)
    (hp : jsonPure g v = true)
    (hbt : btChar ∉ (JSONstringifyF g v).toList)
    (hclean : cleanJsonString ("\n" ++ JSONstringifyF g v ++ "\n") = JSONstringifyF g v) :
    safeJsonParse ("```json\n" ++ JSONstringifyF g v ++ "\n```") = some v := by
  set S := JSONstringifyF g v with hS
  have htl : ("```json\n" ++ S ++ "\n```").toList =
      btChar :: btChar :: btChar :: 'j' :: 's' :: 'o' :: 'n' :: nlChar ::
        (S.toList ++ nlChar :: btChar :: btChar :: btChar :: []) := by
    rw [string_append_toList, string_append_toList]
    rfl
  have hne : ¬ ("```json\n" ++ S ++ "\n```") = "" := by
    intro h
    have : ("```json\n" ++ S ++ "\n```").toList = "".toList := by rw [h]
    rw [htl] at this
    simp at this
  have hcap : String.mk (nlChar :: (S.toList ++ [nlChar])) = "\n" ++ S ++ "\n" := by
    apply string_mk_inj
    rw [show ('\n' : Char) = nlChar from by decide]
    simp [hS]
    rfl
  rw [safeJsonParse, safeJsonParseLog, if_neg hne, htl]
  simp only [fenceSearch_wrap S.toList hbt, hcap, hclean, parseWithRepair,
    JSONparse_stringify g v hp]

theorem findSet_self (k : String) (v : Json) : ∀ l : List (String × Json),
    (∃ q ∈ l, q.1 = k) →
    ((l.map (fun p => if p.1 = k then (p.1, v) else p)).find?
      (fun p => p.1 = k)).map Prod.snd = some v := by
  intro l
  induction l with
  | nil => simp
  | cons q tl ih =>
    intro hex
    rw [List.map_cons]
    by_cases hq : q.1 = k
    · rw [if_pos hq, List.find?_cons_of_pos _ (by simpa using hq)]
      simp
    · rw [if_neg hq, List.find?_cons_of_neg _ (by simpa using hq)]
      apply ih
      obtain ⟨r, hr, hrk⟩ := hex
      rcases List.mem_cons.mp hr with h | h
      · exact absurd (h ▸ hrk) hq
      · exact ⟨r, h, hrk⟩

theorem findSet_ne (k k2 : String) (v : Json) (hne : ¬ k2 = k) :
    ∀ l : List (String × Json),
    (l.map (fun p => if p.1 = k then (p.1, v) else p)).find? (fun p => p.1 = k2) =
      l.find? (fun p => p.1 = k2) := by
  intro l
  induction l with
  | nil => rfl
  | cons q tl ih =>
    rw [List.map_cons]
    by_cases hq : q.1 = k
    · rw [if_pos hq]
      have h2 : ¬ ((q.1, v) : String × Json).1 = k2 := by
        simp only []
        rw [hq]
        exact fun hh => hne hh.symm
      have h3 : ¬ q.1 = k2 := by
        rw [hq]
        exact fun hh => hne hh.symm
      rw [List.find?_cons_of_neg _ (by simpa using h2),
        List.find?_cons_of_neg _ (by simpa using h3), ih]
    · rw [if_neg hq]
      by_cases hq2 : q.1 = k2
      · rw [List.find?_cons_of_pos _ (by simpa using hq2),
          List.find?_cons_of_pos _ (by simpa using hq2)]
      · rw [List.find?_cons_of_neg _ (by simpa using hq2),
          List.find?_cons_of_neg _ (by simpa using hq2), ih]

theorem assocGet_assocSet_self (fs : List (String × Json)) (k : String) (v : Json) :
    assocGet (assocSet fs k v) k = some v := by
  rw [assocSet]
  split
  next hany =>
    rw [assocGet, ← List.map_reverse]
    apply findSet_self
    rw [List.any_eq_true] at hany
    obtain ⟨p, hp, hpk⟩ := hany
    exact ⟨p, List.mem_reverse.mpr hp, by simpa using hpk⟩
  next =>
    rw [assocGet, List.reverse_append]
    simp [List.find?]

theorem assocGet_assocSet_ne (fs : List (String × Json)) (k k2 : String) (v : Json)
    (hne : ¬ k2 = k) :
    assocGet (assocSet fs k v) k2 = assocGet fs k2 := by
  rw [assocSet]
  split
  next =>
    rw [assocGet, assocGet, ← List.map_reverse, findSet_ne k k2 v hne]
  next =>
    rw [assocGet, assocGet, List.reverse_append]
    simp only [List.reverse_cons, List.reverse_nil, List.nil_append, List.singleton_append,
      List.find?]
    have hkv : decide (((k, v) : String × Json).1 = k2) = false := by
      simp only [decide_eq_false_iff_not]
      exact fun hh => hne hh.symm
    rw [hkv]
    rfl

theorem jget_jset_self (d d2 : Json) (k : String) (v : Json)
    (h : jset d k v = some d2) : jget d2 k = some v := by
  cases d with
  | obj fs =>
    rw [jset] at h
    injection h with h
    rw [← h, jget, assocGet_assocSet_self]
  | arr props xs =>
    rw [jset] at h
    injection h with h
    rw [← h, jget, assocGet_assocSet_self]
  | null => exact Option.noConfusion h
  | bool b => exact Option.noConfusion h
  | num n => exact Option.noConfusion h
  | str s => exact Option.noConfusion h

theorem jget_jset_ne (d d2 : Json) (k k2 : String) (v : Json)
    (hne : ¬ k2 = k) (h : jset d k v = some d2) : jget d2 k2 = jget d k2 := by
  cases d with
  | obj fs =>
    rw [jset] at h
    injection h with h
    rw [← h, jget, jget, assocGet_assocSet_ne _ _ _ _ hne]
  | arr props xs =>
    rw [jset] at h
    injection h with h
    rw [← h, jget, jget, assocGet_assocSet_ne _ _ _ _ hne]
  | null => exact Option.noConfusion h
  | bool b => exact Option.noConfusion h
  | num n => exact Option.noConfusion h
  | str s => exact Option.noConfusion h

theorem fillIfFalsy_pres (d d2 : Json) (k k2 : String) (v : Json)
    (hne : ¬ k2 = k) (h : fillIfFalsy d k v = some d2) : jget d2 k2 = jget d k2 := by
  rw [fillIfFalsy] at h
  cases hx : jget d k with
  | some x =>
    simp only [hx] at h
    by_cases ht : truthy x = true
    · rw [if_pos ht] at h
      injection h with h
      rw [h]
    · rw [if_neg ht] at h
      exact jget_jset_ne d d2 k k2 v hne h
  | none =>
    simp only [hx] at h
    exact jget_jset_ne d d2 k k2 v hne h

def isObjOrArr : Json → Bool
  | .obj _ => true
  | .arr _ _ => true
  | _ => false

theorem jset_objArr (d d2 : Json) (k : String) (v : Json)
    (h : jset d k v = some d2) : isObjOrArr d2 = true := by
  cases d with
  | obj fs => rw [jset] at h; injection h with h; rw [← h]; rfl
  | arr props xs => rw [jset] at h; injection h with h; rw [← h]; rfl
  | null => exact Option.noConfusion h
  | bool b => exact Option.noConfusion h
  | num n => exact Option.noConfusion h
  | str s => exact Option.noConfusion h

theorem fillIfFalsy_objArr (d d2 : Json) (k : String) (v : Json)
    (hd : isObjOrArr d = true) (h : fillIfFalsy d k v = some d2) :
    isObjOrArr d2 = true := by
  rw [fillIfFalsy] at h
  cases hx : jget d k with
  | some x =>
    simp only [hx] at h
    by_cases ht : truthy x = true
    · rw [if_pos ht] at h; injection h with h; rw [← h]; exact hd
    · rw [if_neg ht] at h; exact jset_objArr d d2 k v h
  | none =>
    simp only [hx] at h
    exact jset_objArr d d2 k v h

theorem coordsOk_objArr (d : Json) (h : coordsOk d = true) : isObjOrArr d = true := by
  cases d with
  | obj fs => rfl
  | arr props xs => rfl
  | null => rw [coordsOk] at h; simp [jget] at h
  | bool b => rw [coordsOk] at h; simp [jget] at h
  | num n => rw [coordsOk] at h; simp [jget] at h
  | str s => rw [coordsOk] at h; simp [jget] at h

theorem objArr_truthy (d : Json) (h : isObjOrArr d = true) : truthy d = true := by
  cases d with
  | obj fs => rfl
  | arr props xs => rfl
  | null => exact absurd h (Bool.false_ne_true)
  | bool b => exact absurd h (Bool.false_ne_true)
  | num n => exact absurd h (Bool.false_ne_true)
  | str s => exact absurd h (Bool.false_ne_true)

theorem jget_defaultInfo_coords (lat lng : Int) :
    jget (defaultInfo lat lng) "coordinates" = some (coordsJson lat lng) := rfl

theorem coordsOk_defaultInfo (lat lng : Int) : coordsOk (defaultInfo lat lng) = true := rfl

theorem coerceTail (d1 r : Json)
    (h : (fillIfFalsy d1 "description" (Json.str "Detailed description unavailable.")).bind
        (fun a => (fillIfFalsy a "funFacts" (Json.arr [] [])).bind fun a =>
          (fillIfFalsy a "notable" (Json.arr [] [])).bind fun a =>
            (fillIfFalsy a "type" (Json.str "Point of Interest")).bind fun a =>
              (jset a "news" (Json.arr [] [])).bind fun data => pure data) = some r) :
    isObjOrArr r = true ∧ jget r "coordinates" = jget d1 "coordinates" := by
  rw [Option.bind_eq_some] at h
  obtain ⟨d2, hd2, h⟩ := h
  rw [Option.bind_eq_some] at h
  obtain ⟨d3, hd3, h⟩ := h
  rw [Option.bind_eq_some] at h
  obtain ⟨d4, hd4, h⟩ := h
  rw [Option.bind_eq_some] at h
  obtain ⟨d5, hd5, h⟩ := h
  rw [Option.bind_eq_some] at h
  obtain ⟨d6, hd6, h⟩ := h
  have h : d6 = r := Option.some.inj h
  constructor
  · rw [← h]
    exact jset_objArr d5 d6 "news" _ hd6
  · rw [← h]
    rw [jget_jset_ne d5 d6 "news" "coordinates" _ (by decide) hd6]
    rw [fillIfFalsy_pres d4 d5 "type" "coordinates" _ (by decide) hd5]
    rw [fillIfFalsy_pres d3 d4 "notable" "coordinates" _ (by decide) hd4]
    rw [fillIfFalsy_pres d2 d3 "funFacts" "coordinates" _ (by decide) hd3]
    rw [fillIfFalsy_pres d1 d2 "description" "coordinates" _ (by decide) hd2]

theorem coerceInfo_props (lat lng : Int) (d0 r : Json)
    (hr : coerceInfo lat lng d0 = some r) :
    isObjOrArr r = true ∧
    ((truthy d0 && coordsOk d0) = false → jget r "coordinates" = some (coordsJson lat lng)) := by
  rw [coerceInfo] at hr
  simp only [bind] at hr
  by_cases hc : coordsOk (if truthy d0 = true then d0 else defaultInfo lat lng) = true
  · rw [if_pos hc] at hr
    simp only [Option.some_bind] at hr
    obtain ⟨ho, hp⟩ := coerceTail _ r hr
    refine ⟨ho, ?_⟩
    intro hfc
    rw [hp]
    by_cases ht : truthy d0 = true
    · rw [if_pos ht] at hc
      rw [ht, hc] at hfc
      exact absurd hfc (by decide)
    · rw [if_neg ht]
      exact jget_defaultInfo_coords lat lng
  · rw [if_neg hc] at hr
    rw [Option.bind_eq_some] at hr
    obtain ⟨d1, hd1, hr⟩ := hr
    obtain ⟨ho, hp⟩ := coerceTail d1 r hr
    refine ⟨ho, fun hfc => ?_⟩
    rw [hp]
    exact jget_jset_self _ d1 "coordinates" _ hd1

/-- C1: `getInfoFromCoordinates` always returns a non-nil (truthy) record,
and the returned `coordinates` field equals the input pair exactly whenever
the parsed reply does not itself carry a truthy `coordinates` value with a
numeric `lat` — in particular on unparsable text, on primitive replies and
on thrown errors.  (Amended: the original claim said the input coordinates
are kept for **every** reply, but a well-formed reply whose `coordinates`
object has a numeric `lat` is trusted and returned verbatim; see the
counterexample.) -/
theorem getInfoFromCoordinates_coords_invariant (lat lng : Int)
    (outcome : Except ErrObj String)
    (hnc : ∀ text, outcome = Except.ok text →
      (truthy ((safeJsonParse text).getD .null) &&
        coordsOk ((safeJsonParse text).getD .null)) = false) :
    truthy (getInfoFromCoordinates lat lng outcome) = true ∧
    jget (getInfoFromCoordinates lat lng outcome) "coordinates" =
      some (coordsJson lat lng) := by
  cases outcome with
  | error e => exact ⟨rfl, rfl⟩
  | ok text =>
    have hfc := hnc text rfl
    cases hco : coerceInfo lat lng ((safeJsonParse text).getD .null) with
    | none =>
      simp only [getInfoFromCoordinates, hco]
      exact ⟨rfl, rfl⟩
    | some d =>
      simp only [getInfoFromCoordinates, hco]
      obtain ⟨ho, hp⟩ := coerceInfo_props lat lng _ d hco
      exact ⟨objArr_truthy d ho, hp hfc⟩

/-- Witness for C1 at the unparsable reply "nonsense" and input (1, 2). -/
theorem getInfoFromCoordinates_coords_invariant_witness :
    truthy (getInfoFromCoordinates 1 2 (Except.ok "nonsense")) = true ∧
    jget (getInfoFromCoordinates 1 2 (Except.ok "nonsense")) "coordinates" =
      some (coordsJson 1 2) :=
  getInfoFromCoordinates_coords_invariant 1 2 (Except.ok "nonsense")
    (fun text ht => by
      injection ht with ht
      rw [← ht]
      rfl)

/-- C1 counterexample: a well-formed reply claiming coordinates (99, 88)
with a numeric `lat` is kept verbatim, so the result of a (1, 2) request
does not carry the input coordinates. -/
theorem getInfoFromCoordinates_coords_counterexample :
    jget (getInfoFromCoordinates 1 2 (Except.ok
      "\x7b\"coordinates\": \x7b\"lat\": 99, \"lng\": 88\x7d\x7d")) "coordinates"
      = some (Json.obj [("lat", Json.num 99), ("lng", Json.num 88)]) ∧
    ¬ jget (getInfoFromCoordinates 1 2 (Except.ok
      "\x7b\"coordinates\": \x7b\"lat\": 99, \"lng\": 88\x7d\x7d")) "coordinates"
      = some (coordsJson 1 2) := by
  refine ⟨rfl, ?_⟩
  intro h
  rw [show jget (getInfoFromCoordinates 1 2 (Except.ok
      "\x7b\"coordinates\": \x7b\"lat\": 99, \"lng\": 88\x7d\x7d")) "coordinates"
      = some (Json.obj [("lat", Json.num 99), ("lng", Json.num 88)]) from rfl] at h
  simp only [coordsJson, Option.some.injEq, Json.obj.injEq, List.cons.injEq,
    Prod.mk.injEq, Json.num.injEq] at h
  omega

/-- Backoff-delay bookkeeping for the retrying invoker: at most one delay
per remaining retry, every collected delay is at least the first one the
current level would sleep, and the delays strictly increase. -/
theorem gcwr_delays_aux {α : Type} (call : Nat → Except ErrObj α) :
    ∀ retries attempt,
      (generateContentWithRetry call attempt retries).2.length ≤ retries ∧
      (∀ d ∈ (generateContentWithRetry call attempt retries).2,
        4000 * (4 - (retries : Int)) ≤ d) ∧
      List.Chain' (fun a b => a < b) (generateContentWithRetry call attempt retries).2 := by
  intro retries
  induction retries with
  | zero =>
    intro attempt
    rw [generateContentWithRetry]
    cases call attempt with
    | ok v => exact ⟨by simp, by simp, by simp⟩
    | error e =>
      cases isQuotaError e <;> exact ⟨by simp, by simp, by simp⟩
  | succ r ih =>
    intro attempt
    rw [generateContentWithRetry]
    cases call attempt with
    | ok v => exact ⟨by simp, by simp, by simp⟩
    | error e =>
      simp only []
      cases hq : isQuotaError e with
      | false => rw [if_neg Bool.false_ne_true]; exact ⟨by simp, by simp, by simp⟩
      | true =>
        rw [if_pos rfl]
        simp only []
        obtain ⟨ihl, ihb, ihc⟩ := ih (attempt + 1)
        have hstep : 4000 * (4 - ((Nat.succ r : Nat) : Int)) + 4000 ≤ 4000 * (4 - (r : Int)) := by
          push_cast
          ring_nf
          omega
        refine ⟨?_, ?_, ?_⟩
        · simp only [List.length_cons]
          omega
        · intro d hd
          rcases List.mem_cons.mp hd with h | h
          · rw [h]
          · have := ihb d h
            omega
        · rw [List.chain'_cons']
          refine ⟨?_, ihc⟩
          intro y hy
          have hmem : y ∈ (generateContentWithRetry call (attempt + 1) r).2 :=
            List.mem_of_mem_head? hy
          have := ihb y hmem
          omega

/-- A non-rate-limited error propagates immediately with no delay. -/
theorem gcwr_nonquota {α : Type} (call : Nat → Except ErrObj α)
    (attempt retries : Nat) (e : ErrObj)
    (hc : call attempt = Except.error e) (hq : isQuotaError e = false) :
    generateContentWithRetry call attempt retries = (Except.error e, []) := by
  cases retries with
  | zero =>
    rw [generateContentWithRetry, hc]
  | succ r =>
    rw [generateContentWithRetry, hc]
    simp only []
    rw [if_neg (by rw [hq]; exact Bool.false_ne_true)]

/-- A 429-status error, recognised by the rate-limit classifier. -/
def quotaErr429 : ErrObj := ⟨some 429, none, none, none, none⟩

/-- A simulated remote call that fails rate-limited on its first two
attempts and succeeds on the third. -/
def quotaCall3 : Nat → Except ErrObj Int :=
  fun i => if i < 2 then Except.error quotaErr429 else Except.ok 42

/-- C3: the retrying invoker performs at most one backoff delay per
remaining retry and the delays strictly increase per attempt; any
non-rate-limited error propagates immediately with no delay; a call that
fails rate-limited on its first two attempts and succeeds on the third
returns the success after exactly the two strictly increasing delays
4000 ms and 8000 ms when 3 retries remain, and with 0 retries the same
call surfaces the error immediately with no delay. -/
theorem generateContentWithRetry_policy :
    (∀ (call : Nat → Except ErrObj Int) (attempt retries : Nat),
      (generateContentWithRetry call attempt retries).2.length ≤ retries ∧
      List.Chain' (fun a b => a < b) (generateContentWithRetry call attempt retries).2) ∧
    (∀ (call : Nat → Except ErrObj Int) (attempt retries : Nat) (e : ErrObj),
      call attempt = Except.error e → isQuotaError e = false →
      generateContentWithRetry call attempt retries = (Except.error e, [])) ∧
    generateContentWithRetry quotaCall3 0 3 = (Except.ok 42, [4000, 8000]) ∧
    generateContentWithRetry quotaCall3 0 0 = (Except.error quotaErr429, []) := by
  refine ⟨?_, ?_, rfl, rfl⟩
  · intro call attempt retries
    obtain ⟨h1, _, h3⟩ := gcwr_delays_aux call retries attempt
    exact ⟨h1, h3⟩
  · intro call attempt retries e hc hq
    exact gcwr_nonquota call attempt retries e hc hq

/-- Witness for C3: a permanently failing non-quota call with 5 retries
surfaces the error with no delay, and the canonical quota scenario sleeps
at most 3 times. -/
theorem generateContentWithRetry_policy_witness :
    generateContentWithRetry (fun _ => (Except.error typeErrObj : Except ErrObj Int)) 0 5 =
      (Except.error typeErrObj, []) ∧
    (generateContentWithRetry quotaCall3 0 3).2.length ≤ 3 :=
  ⟨generateContentWithRetry_policy.2.1 (fun _ => (Except.error typeErrObj : Except ErrObj Int)) 0 5
    typeErrObj rfl (by decide),
   (generateContentWithRetry_policy.1 quotaCall3 0 3).1⟩

/-- Anything surviving `exFilter` came from the input list and passed
the (effectful) predicate. -/
theorem exFilter_ok_mem {α : Type} (p : α → Except ErrObj Bool) :
    ∀ (xs l : List α), exFilter p xs = Except.ok l →
      ∀ n ∈ l, n ∈ xs ∧ p n = Except.ok true := by
  intro xs
  induction xs with
  | nil =>
    intro l h n hn
    rw [exFilter] at h
    injection h with h
    rw [← h] at hn
    exact absurd hn (List.not_mem_nil n)
  | cons x tl ih =>
    intro l h n hn
    rw [exFilter] at h
    simp only [bind] at h
    cases hb : p x with
    | error e =>
      rw [hb] at h
      simp only [Except.bind] at h
      exact Except.noConfusion h
    | ok b =>
      rw [hb] at h
      cases hys : exFilter p tl with
      | error e =>
        rw [hys] at h
        simp only [Except.bind] at h
        exact Except.noConfusion h
      | ok ys =>
        rw [hys] at h
        simp only [Except.bind, pure, Except.pure] at h
        injection h with h
        cases b with
        | true =>
          rw [if_pos rfl] at h
          rw [← h] at hn
          rcases List.mem_cons.mp hn with heq | hmem
          · rw [heq]
            exact ⟨List.mem_cons_self x tl, hb⟩
          · obtain ⟨h1, h2⟩ := ih ys hys n hmem
            exact ⟨List.mem_cons_of_mem x h1, h2⟩
        | false =>
          rw [if_neg Bool.false_ne_true] at h
          rw [← h] at hn
          obtain ⟨h1, h2⟩ := ih ys hys n hn
          exact ⟨List.mem_cons_of_mem x h1, h2⟩

/-- The url filter accepts exactly the long-enough, non-truncated,
`http`-prefixed strings. -/
theorem urlCheck_true (u : Json) (h : urlCheck u = Except.ok true) :
    ∃ s : String, u = Json.str s ∧ 10 ≤ s.toList.length ∧
      hasSub s "..." = false ∧ "http".toList.isPrefixOf s.toList = true := by
  cases u with
  | str s =>
    rw [urlCheck.eq_def] at h
    split at h
    · exact absurd (Except.ok.inj h) Bool.false_ne_true
    · simp only [] at h
      refine ⟨s, rfl, ?_⟩
      split_ifs at h with h1 h2 h3
      · exact absurd (Except.ok.inj h) Bool.false_ne_true
      · exact absurd (Except.ok.inj h) Bool.false_ne_true
      · exact ⟨by omega, eq_false_of_ne_true h2, h3⟩
      · exact absurd (Except.ok.inj h) Bool.false_ne_true
  | arr props xs =>
    rw [urlCheck.eq_def] at h
    split at h
    · exact absurd (Except.ok.inj h) Bool.false_ne_true
    · simp only [] at h
      split_ifs at h
      all_goals exact absurd (Except.ok.inj h) Bool.false_ne_true
  | null =>
    rw [urlCheck.eq_def] at h
    split at h
    · exact absurd (Except.ok.inj h) Bool.false_ne_true
    · simp only [] at h
      exact Except.noConfusion h
  | bool b =>
    rw [urlCheck.eq_def] at h
    split at h
    · exact absurd (Except.ok.inj h) Bool.false_ne_true
    · simp only [] at h
      exact Except.noConfusion h
  | num n =>
    rw [urlCheck.eq_def] at h
    split at h
    · exact absurd (Except.ok.inj h) Bool.false_ne_true
    · simp only [] at h
      exact Except.noConfusion h
  | obj fs =>
    rw [urlCheck.eq_def] at h
    split at h
    · exact absurd (Except.ok.inj h) Bool.false_ne_true
    · simp only [] at h
      exact Except.noConfusion h

/-- Every item surviving the map-then-filter pipeline of `fetchLiveNews`
carries a long-enough, non-truncated, `http`-prefixed string url. -/
theorem newsPipeline_url (items l : List Json)
    (h : Except.bind (exMap mapNewsItem items)
      (fun mapped => exFilter (fun n => urlCheck ((jget n "url").getD Json.null)) mapped) =
        Except.ok l) :
    ∀ n ∈ l, ∃ s : String, jget n "url" = some (Json.str s) ∧ 10 ≤ s.toList.length ∧
      hasSub s "..." = false ∧ "http".toList.isPrefixOf s.toList = true := by
  cases hm : exMap mapNewsItem items with
  | error e =>
    rw [hm] at h
    simp only [Except.bind] at h
    exact Except.noConfusion h
  | ok mapped =>
    rw [hm] at h
    simp only [Except.bind] at h
    intro n hn
    obtain ⟨hmem, hp⟩ := exFilter_ok_mem _ mapped l h n hn
    obtain ⟨s, hs, hlen, hdots, hpre⟩ := urlCheck_true _ hp
    refine ⟨s, ?_, hlen, hdots, hpre⟩
    cases hg : jget n "url" with
    | some x =>
      rw [hg] at hs
      simp only [Option.getD] at hs
      rw [hs]
    | none =>
      rw [hg] at hs
      simp only [Option.getD] at hs
      exact Json.noConfusion hs

/-- C6: every item in a list returned by `fetchLiveNews` either is the
synthetic quota-fallback item — whose url is the placeholder "#", not an
`http` link — or carries a string url at least 10 characters long that
starts with "http" and contains no "...".  (Amended: the original claim
required an `http`-prefixed, non-truncated url of **every** returned
item, but the rate-limit fallback path returns the synthetic item with
url "#"; see the counterexample.) -/
theorem fetchLiveNews_url_invariant (exclude : List String)
    (outcome : Except ErrObj String) :
    ∀ n ∈ fetchLiveNews exclude outcome,
      n = newsUnavailable ∨
      ∃ s : String, jget n "url" = some (Json.str s) ∧ 10 ≤ s.toList.length ∧
        hasSub s "..." = false ∧ "http".toList.isPrefixOf s.toList = true := by
  intro n hn
  rw [fetchLiveNews] at hn
  cases outcome with
  | error e =>
    simp only [bind, Except.bind] at hn
    by_cases hq : isQuotaCatch e = true
    · rw [if_pos hq] at hn
      exact Or.inl (List.mem_singleton.mp hn)
    · rw [if_neg hq] at hn
      exact absurd hn (List.not_mem_nil n)
  | ok text =>
    simp only [bind, Except.bind] at hn
    split at hn
    · next l heq =>
      exact Or.inr (newsPipeline_url _ l (by exact heq) n hn)
    · next e heq =>
      by_cases hq : isQuotaCatch e = true
      · rw [if_pos hq] at hn
        exact Or.inl (List.mem_singleton.mp hn)
      · rw [if_neg hq] at hn
        exact absurd hn (List.not_mem_nil n)

/-- Witness for C6: a reply carrying one item with a valid url, at the
item actually returned. -/
theorem fetchLiveNews_url_invariant_witness :
    Json.obj [("headline", Json.str "News Update"), ("summary", Json.str ""),
        ("source", Json.str "Unknown"), ("url", Json.str "http://example.com/article")]
      = newsUnavailable ∨
    ∃ s : String,
      jget (Json.obj [("headline", Json.str "News Update"), ("summary", Json.str ""),
        ("source", Json.str "Unknown"), ("url", Json.str "http://example.com/article")]) "url"
        = some (Json.str s) ∧ 10 ≤ s.toList.length ∧
      hasSub s "..." = false ∧ "http".toList.isPrefixOf s.toList = true :=
  fetchLiveNews_url_invariant []
    (Except.ok "[\x7b\"url\": \"http://example.com/article\"\x7d]")
    (Json.obj [("headline", Json.str "News Update"), ("summary", Json.str ""),
      ("source", Json.str "Unknown"), ("url", Json.str "http://example.com/article")])
    (by
      rw [show fetchLiveNews [] (Except.ok "[\x7b\"url\": \"http://example.com/article\"\x7d]") =
        [Json.obj [("headline", Json.str "News Update"), ("summary", Json.str ""),
          ("source", Json.str "Unknown"), ("url", Json.str "http://example.com/article")]]
        from rfl]
      exact List.mem_singleton.mpr rfl)

/-- C6 counterexample: on a rate-limit failure `fetchLiveNews` returns
the synthetic fallback item, whose url "#" is not an `http` link. -/
theorem fetchLiveNews_url_counterexample :
    fetchLiveNews []
      (Except.error ⟨none, none, some "Error 429: quota exceeded", none, none⟩) =
      [newsUnavailable] ∧
    jget newsUnavailable "url" = some (Json.str "#") ∧
    "http".toList.isPrefixOf "#".toList = false := by
  exact ⟨rfl, rfl, by decide⟩

/-- C7: the exclusion list never filters the returned items — the result
is the same for every exclusion list — and reaches only the prompt,
which repeats the excluded headlines and demands different stories.
(Amended: the original claim said an item whose headline matches an
excluded headline is never returned; the exclusion is enforced only as a
prompt instruction, so a reply repeating an excluded headline is
returned as-is; see the counterexample.) -/
theorem fetchLiveNews_exclude_prompt_only :
    (∀ (exclude exclude2 : List String) (outcome : Except ErrObj String),
      fetchLiveNews exclude outcome = fetchLiveNews exclude2 outcome) ∧
    hasSub (fetchLiveNewsPrompt "2025-06-01" "Paris" ["Paris unveils new tower"])
      "Paris unveils new tower" = true ∧
    hasSub (fetchLiveNewsPrompt "2025-06-01" "Paris" ["Paris unveils new tower"])
      "You MUST find DIFFERENT stories." = true :=
  ⟨fun _ _ _ => rfl, rfl, rfl⟩

/-- C7 counterexample: a reply repeating the excluded headline "Paris
unveils new tower" is returned with that very headline. -/
theorem fetchLiveNews_exclude_counterexample :
    ∃ n ∈ fetchLiveNews ["Paris unveils new tower"]
      (Except.ok
        "[\x7b\"headline\": \"Paris unveils new tower\", \"url\": \"http://example.com/a\"\x7d]"),
      jget n "headline" = some (Json.str "Paris unveils new tower") := by
  refine ⟨Json.obj [("headline", Json.str "Paris unveils new tower"), ("summary", Json.str ""),
    ("source", Json.str "Unknown"), ("url", Json.str "http://example.com/a")], ?_, rfl⟩
  rw [show fetchLiveNews ["Paris unveils new tower"]
      (Except.ok
        "[\x7b\"headline\": \"Paris unveils new tower\", \"url\": \"http://example.com/a\"\x7d]") =
      [Json.obj [("headline", Json.str "Paris unveils new tower"), ("summary", Json.str ""),
        ("source", Json.str "Unknown"), ("url", Json.str "http://example.com/a")]] from rfl]
  exact List.mem_singleton.mpr rfl

/-- C9: every waypoint returned by `generateRoute` has `lat` strictly
different from the number 0 or `lng` strictly different from the number
0; in particular a waypoint whose coordinates are missing (defaulting to
0) or both exactly 0 never appears — as the concrete scenario shows,
only the resolved waypoint of a two-item reply survives. -/
theorem generateRoute_zero_filter :
    (∀ (now : Int) (outcome : Except ErrObj String),
      ∀ w ∈ generateRoute now outcome,
        (strictNeZero w.lat || strictNeZero w.lng) = true) ∧
    generateRoute 7 (Except.ok
        "[\x7b\"name\": \"A\"\x7d, \x7b\"name\": \"B\", \"lat\": 1, \"lng\": 2\x7d]") =
      [⟨"wp-1-7", Json.str "B", Json.num 1, Json.num 2, Json.str "", none⟩] := by
  refine ⟨?_, rfl⟩
  intro now outcome w hw
  rw [generateRoute] at hw
  cases outcome with
  | error e =>
    simp only [bind, Except.bind] at hw
    exact absurd hw (List.not_mem_nil w)
  | ok text =>
    simp only [bind, Except.bind] at hw
    split at hw
    · next l heq =>
      cases hm : exMapIdx (mapWaypoint (routeExtract (safeJsonParse text)).1 now) 0
          (routeExtract (safeJsonParse text)).2 with
      | error e =>
        rw [hm] at heq
        simp only [Except.bind] at heq
        exact Except.noConfusion heq
      | ok wps =>
        rw [hm] at heq
        simp only [Except.bind, pure, Except.pure] at heq
        injection heq with heq
        rw [← heq] at hw
        exact (List.mem_filter.mp hw).2
    · next e heq =>
      exact absurd hw (List.not_mem_nil w)

/-- Witness for C9 at the two-item scenario: the surviving waypoint
satisfies the zero-filter predicate. -/
theorem generateRoute_zero_filter_witness :
    (strictNeZero (Waypoint.mk "wp-1-7" (Json.str "B") (Json.num 1) (Json.num 2)
        (Json.str "") none).lat ||
      strictNeZero (Waypoint.mk "wp-1-7" (Json.str "B") (Json.num 1) (Json.num 2)
        (Json.str "") none).lng) = true :=
  generateRoute_zero_filter.1 7
    (Except.ok "[\x7b\"name\": \"A\"\x7d, \x7b\"name\": \"B\", \"lat\": 1, \"lng\": 2\x7d]")
    (Waypoint.mk "wp-1-7" (Json.str "B") (Json.num 1) (Json.num 2) (Json.str "") none)
    (by
      rw [show generateRoute 7 (Except.ok
          "[\x7b\"name\": \"A\"\x7d, \x7b\"name\": \"B\", \"lat\": 1, \"lng\": 2\x7d]") =
        [⟨"wp-1-7", Json.str "B", Json.num 1, Json.num 2, Json.str "", none⟩] from rfl]
      exact List.mem_singleton.mpr rfl)

/-- C8: `getNearbyPlaces` accepts the marker list whether delivered as a
bare JSON array or wrapped in a `places` field, and returns the empty
list on any failure — a thrown error (including exhausted rate-limit
retries) or unparsable text.  (Amended: the original claim also named a
`markers` wrapper, but only `places` is looked up; a reply wrapped in
`markers` yields the empty list — see the counterexample.) -/
theorem getNearbyPlaces_accepts :
    (∀ e : ErrObj, getNearbyPlaces (Except.error e) = []) ∧
    (∀ text : String, safeJsonParse text = none →
      getNearbyPlaces (Except.ok text) = []) ∧
    (∀ (text : String) (d : Json), safeJsonParse text = some d → d.isArr = true →
      getNearbyPlaces (Except.ok text) = d.elems) ∧
    (∀ (text : String) (d p : Json), safeJsonParse text = some d → d.isArr = false →
      truthy d = true → jget d "places" = some p → (truthy p && p.isArr) = true →
      getNearbyPlaces (Except.ok text) = p.elems) := by
  refine ⟨fun e => rfl, ?_, ?_, ?_⟩
  · intro text h
    rw [getNearbyPlaces, h]
  · intro text d h ha
    rw [getNearbyPlaces, h]
    simp only [ha, if_true]
  · intro text d p h ha ht hp hpa
    rw [getNearbyPlaces, h]
    simp only [ha, ht, hp, hpa, Bool.false_eq_true, if_false, if_true]

/-- Witness for C8: the bare-array and `places`-wrapped forms of a
one-marker reply, and an unparsable reply. -/
theorem getNearbyPlaces_accepts_witness :
    getNearbyPlaces (Except.ok "[\x7b\"name\": \"A\"\x7d]") =
      (Json.arr [] [Json.obj [("name", Json.str "A")]]).elems ∧
    getNearbyPlaces (Except.ok "\x7b\"places\": [\x7b\"name\": \"A\"\x7d]\x7d") =
      (Json.arr [] [Json.obj [("name", Json.str "A")]]).elems ∧
    getNearbyPlaces (Except.ok "no json here") = [] :=
  ⟨getNearbyPlaces_accepts.2.2.1 "[\x7b\"name\": \"A\"\x7d]"
      (Json.arr [] [Json.obj [("name", Json.str "A")]]) rfl rfl,
   getNearbyPlaces_accepts.2.2.2 "\x7b\"places\": [\x7b\"name\": \"A\"\x7d]\x7d"
      (Json.obj [("places", Json.arr [] [Json.obj [("name", Json.str "A")]])])
      (Json.arr [] [Json.obj [("name", Json.str "A")]]) rfl rfl rfl rfl rfl,
   getNearbyPlaces_accepts.2.1 "no json here" rfl⟩

/-- C8 counterexample: a reply wrapped in a `markers` field parses to a
truthy object but yields the empty list. -/
theorem getNearbyPlaces_markers_counterexample :
    getNearbyPlaces (Except.ok "\x7b\"markers\": [\x7b\"name\": \"A\"\x7d]\x7d") = [] ∧
    safeJsonParse "\x7b\"markers\": [\x7b\"name\": \"A\"\x7d]\x7d" =
      some (Json.obj [("markers", Json.arr [] [Json.obj [("name", Json.str "A")]])]) :=
  ⟨rfl, rfl⟩

/-- C10: when extraction yields a JSON array, `getNearbyPlaces` returns
its elements verbatim with no validation or field backfill; in
particular the reply `[ \x7b \x7d ]` produces one returned marker that
lacks the `id`, `name`, `lat`, `lng` and `populationClass` fields. -/
theorem getNearbyPlaces_verbatim :
    (∀ (text : String) (d : Json), safeJsonParse text = some d → d.isArr = true →
      getNearbyPlaces (Except.ok text) = d.elems) ∧
    getNearbyPlaces (Except.ok "[\x7b\x7d]") = [Json.obj []] ∧
    jget (Json.obj []) "id" = none ∧ jget (Json.obj []) "name" = none ∧
    jget (Json.obj []) "lat" = none ∧ jget (Json.obj []) "lng" = none ∧
    jget (Json.obj []) "populationClass" = none := by
  refine ⟨?_, rfl, rfl, rfl, rfl, rfl, rfl⟩
  intro text d h ha
  rw [getNearbyPlaces, h]
  simp only [ha, if_true]

/-- Witness for C10: the one-element empty-object reply, passed through
the bare-array branch. -/
theorem getNearbyPlaces_verbatim_witness :
    getNearbyPlaces (Except.ok "[\x7b\x7d]") = (Json.arr [] [Json.obj []]).elems :=
  getNearbyPlaces_verbatim.1 "[\x7b\x7d]" (Json.arr [] [Json.obj []]) rfl rfl

/-- C2: the truncation-repair bug.  On the documented candidate
`\x7b"name": "Tokyo", "funFacts": ["fact1", "fact2` — cut mid-string
with one object and one array left open — the repairer closes the
unterminated string but then appends the closing brace **before** the
closing bracket, producing `..."fact2"\x7d]`, which is not valid JSON:
the subsequent parse fails instead of yielding the documented value. -/
theorem repairTruncatedJson_tokyo_bug :
    repairTruncatedJson "\x7b\"name\": \"Tokyo\", \"funFacts\": [\"fact1\", \"fact2" =
      "\x7b\"name\": \"Tokyo\", \"funFacts\": [\"fact1\", \"fact2\"\x7d]" ∧
    JSONparse "\x7b\"name\": \"Tokyo\", \"funFacts\": [\"fact1\", \"fact2\"\x7d]" = none :=
  ⟨rfl, rfl⟩

/-- C5: the refusal-suppression bug.  The extractor is total and returns
`none` on the documented refusal, but its quiet-refusal whitelist
(`"i am"`, `"sorry"`, `"i cannot"`) does not match the documented text,
which lowercases to `"i\x27m sorry, ..."`: the parse failure is logged
(second component `true`).  A reply starting with `"Sorry"` is, by
contrast, suppressed quietly. -/
theorem safeJsonParse_refusal_bug :
    safeJsonParseLog "I\x27m sorry, I cannot help with that request." = (none, true) ∧
    safeJsonParseLog "Sorry, I cannot help with that request." = (none, false) :=
  ⟨rfl, rfl⟩

/-- C4: fenced round trip.  For every pure JSON value whose
serialization contains no backtick and passes `cleanJsonString`
unchanged, wrapping the serialization as a ` ```json ` fenced block and
running the extractor returns the original value.  (Amended: the
original claim held for **every** valid value, but `cleanJsonString`
deletes every `...` substring — among fences, ellipsis characters and
trailing commas — so values whose serialization contains such text are
mangled; see the counterexample.) -/
theorem safeJsonParse_fence_roundtrip (g : Nat) (v : Json)
    (hp : jsonPure g v = true)
    (hbt : btChar ∉ (JSONstringifyF g v).toList)
    (hclean : cleanJsonString ("\n" ++ JSONstringifyF g v ++ "\n") = JSONstringifyF g v) :
    safeJsonParse ("```json\n" ++ JSONstringifyF g v ++ "\n```") = some v :=
  safeJsonParse_fenced g v hp hbt hclean

/-- Witness for C4 at the object value `\x7b"a": 1\x7d`. -/
theorem safeJsonParse_fence_roundtrip_witness :
    safeJsonParse ("```json\n" ++ JSONstringifyF 2 (Json.obj [("a", Json.num 1)]) ++ "\n```") =
      some (Json.obj [("a", Json.num 1)]) :=
  safeJsonParse_fence_roundtrip 2 (Json.obj [("a", Json.num 1)]) rfl (by decide) rfl

/-- C4 counterexample: the string value `"..."` is pure JSON, but its
fenced serialization comes back as the empty string — `cleanJsonString`
deletes the three dots. -/
theorem safeJsonParse_fence_counterexample :
    jsonPure 1 (Json.str "...") = true ∧
    safeJsonParse ("```json\n" ++ JSONstringifyF 1 (Json.str "...") ++ "\n```") =
      some (Json.str "") ∧
    ¬ (Json.str "" = Json.str "...") := by
  refine ⟨rfl, rfl, ?_⟩
  intro h
  injection h with h
  exact absurd h (by decide)
